import Mathlib

/-!
Verification of the Website-Image-Downloader asset pipeline.

The development shallowly embeds the two route handlers of the repository
(the batch handler in `src/app/api/download-images/route.ts` and the
streaming handler, an unnamed source file with identical per-item logic).
External capabilities (the WHATWG URL parser, the MD5 digest, the HTTP
client, base64 decoding, the HTML parser that collects raw candidate
strings) are passed in as function parameters of `RunConfig`, exactly at
the points where the handlers call out to them.  Everything between those
calls — the image-URL filter, normalization and deduplication, the
per-item download loop, folder classification, filename derivation,
sanitization and collision resolution, and the streamed progress events —
is translated statement by statement from the TypeScript source.

JavaScript `Set` and `Map` are modeled as insertion-ordered lists with a
membership check, which is their observable behavior in this code.  The
batch handler launches all per-item tasks and joins them; since the item
body contains no `await` between its hash check and its archive insertion,
each item body is atomic on the JS event loop, and the run is modeled as a
sequential fold over the items in list order (one of the admissible
completion orders).  The streaming handler is literally such a loop.
-/

/-- Model of the TypeScript `String.prototype.includes` check used all over
the handlers: `subListAt pat l` is true when `pat` occurs as a contiguous
sublist of `l`. -/
def subListAt (pat : List Char) : List Char → Bool
  | [] => pat.isEmpty
  | c :: cs => pat.isPrefixOf (c :: cs) || subListAt pat cs

/-- Model of JavaScript `s.includes(pat)`. -/
def strContains (s pat : String) : Bool :=
  subListAt pat.data s.data

/-- Model of JavaScript `s.startsWith(pre)` (structural, so that concrete
runs evaluate inside the kernel). -/
def strStartsWith (s pre : String) : Bool :=
  pre.data.isPrefixOf s.data

/-- Model of JavaScript `s.endsWith(suf)`. -/
def strEndsWith (s suf : String) : Bool :=
  suf.data.reverse.isPrefixOf s.data.reverse

/-- Split of a character list at every occurrence of a separator
character; the JavaScript `split` calls of the source all use a
single-character separator. -/
def splitOnChar (sep : Char) : List Char → List (List Char)
  | [] => [[]]
  | c :: cs =>
    if c = sep then [] :: splitOnChar sep cs
    else
      match splitOnChar sep cs with
      | [] => [[c]]
      | h :: t => (c :: h) :: t

/-- Model of JavaScript `s.split(sep)` for a one-character separator. -/
def strSplitOn (s : String) (sep : Char) : List String :=
  (splitOnChar sep s.data).map String.mk

/-- Model of JavaScript `s.toLowerCase()` (codepoint-wise lowering; the
source only ever compares ASCII keywords, where the two agree). -/
def jsToLower (s : String) : String :=
  String.mk (s.data.map Char.toLower)

/-- Characters matched by the JavaScript regex class `\s` (the set used by
the `replace(/\s+/g, "_")` sanitization step). -/
def jsWhitespace (c : Char) : Bool :=
  c = '\t' || c = '\n' || c = Char.ofNat 11 || c = Char.ofNat 12 || c = '\r' ||
  c = ' ' || c = Char.ofNat 0xa0 || c = Char.ofNat 0x1680 ||
  (0x2000 ≤ c.toNat && c.toNat ≤ 0x200a) ||
  c = Char.ofNat 0x2028 || c = Char.ofNat 0x2029 || c = Char.ofNat 0x202f ||
  c = Char.ofNat 0x205f || c = Char.ofNat 0x3000 || c = Char.ofNat 0xfeff

/-- Characters removed by `filename.replace(/[<>:"/\\|?*]/g, "_")`. -/
def badFileChar (c : Char) : Bool :=
  c = '<' || c = '>' || c = ':' || c = '"' || c = '/' || c = '\\' ||
  c = '|' || c = '?' || c = '*'

/-- Second sanitization pass, `replace(/\s+/g, "_")`: every maximal run of
whitespace collapses to a single underscore.  The flag records whether the
previous character belonged to a whitespace run. -/
def collapseWsAux : Bool → List Char → List Char
  | _, [] => []
  | prevWs, c :: cs =>
    if jsWhitespace c then
      if prevWs then collapseWsAux true cs
      else '_' :: collapseWsAux true cs
    else c :: collapseWsAux false cs

/-- Model of the sanitization line
`filename.replace(/[<>:"/\\|?*]/g, "_").replace(/\s+/g, "_")`. -/
def sanitizeFilename (filename : String) : String :=
  String.mk (collapseWsAux false
    (filename.data.map (fun c => if badFileChar c then '_' else c)))

/-- Model of `filename.replace(/\/$/, "")`: one trailing slash is removed
when present. -/
def dropTrailingSlash (s : String) : String :=
  if strEndsWith s "/" then String.mk s.data.dropLast else s

/-- Model of the pair
`filename.replace(/\.[^/.]+$/, "")` / `filename.match(/\.[^/.]+$/)?.[0] || ""`:
splits a filename into the part before the final extension and the
extension itself (including its dot).  The regex matches only when the
final dot is followed by at least one character and none of the following
characters is a dot or a slash. -/
def splitExt (filename : String) : String × String :=
  let rev := filename.data.reverse
  let post := rev.takeWhile (fun c => c ≠ '.' && c ≠ '/')
  if post.isEmpty then (filename, "")
  else
    match rev.drop post.length with
    | '.' :: restRev => (String.mk restRev.reverse, String.mk ('.' :: post.reverse))
    | _ => (filename, "")

/-- The eight conventional favicon paths that the extractor adds to the
candidate set unconditionally. -/
def commonFaviconPaths : List String :=
  ["/favicon.ico", "/favicon.png", "/favicon.gif", "/favicon.svg",
   "/apple-touch-icon.png", "/apple-touch-icon-precomposed.png",
   "/apple-icon.png", "/apple-icon-precomposed.png"]

/-- The extension alternatives of the discovery filter regex
`/\.(jpg|jpeg|png|gif|webp|svg|bmp|ico|tiff|tif|avif|jfif|pjpeg|pjp)(\?.*)?$/i`,
in source order (the same alternation is reused by the download-phase
extension guess). -/
def imageExtList : List String :=
  ["jpg", "jpeg", "png", "gif", "webp", "svg", "bmp", "ico", "tiff", "tif",
   "avif", "jfif", "pjpeg", "pjp"]

/-- Model of `imageExtensions.test(absoluteUrl)`: the regex above matches
iff, case-insensitively, the URL ends with a dot followed by one of the
extensions, or contains a dot, one of the extensions and a question mark
(everything after the question mark being unconstrained). -/
def hasImageExtSuffix (u : String) : Bool :=
  imageExtList.any (fun e =>
    strEndsWith (jsToLower u) ("." ++ e) || strContains (jsToLower u) ("." ++ e ++ "?"))

/-- Model of the `mightBeImage` filter of the normalization step, with the
disjuncts in source order. -/
def mightBeImage (absoluteUrl : String) : Bool :=
  hasImageExtSuffix absoluteUrl ||
  strStartsWith absoluteUrl "data:image/" ||
  strContains absoluteUrl "image" ||
  strContains absoluteUrl "img" ||
  strContains absoluteUrl "photo" ||
  strContains absoluteUrl "pic"

/-- Model of `absoluteUrl.split("?")[0].split("#")[0].toLowerCase()`, the
normalized deduplication key. -/
def normalizedKey (absoluteUrl : String) : String :=
  jsToLower ((strSplitOn ((strSplitOn absoluteUrl '?').headD absoluteUrl)
    '#').headD absoluteUrl)

/-- Model of one `Set.add`: JavaScript sets keep the first occurrence and
preserve insertion order. -/
def setInsert (l : List String) (x : String) : List String :=
  if x ∈ l then l else l ++ [x]

/-- Model of the normalization / URL-deduplication loop (`processedUrls`):
resolve each candidate against the page URL (`resolver` is the external
`new URL(src, targetUrl).href` capability; `none` models the constructor
throwing), keep it when `mightBeImage` accepts it, and key the
insertion-ordered map by `md5Str` of the normalized URL, first occurrence
winning.  Returns the list of kept absolute URLs in insertion order. -/
def processUrls (resolver : String → Option String) (md5Str : String → String)
    (cands : List String) : List String :=
  (cands.foldl (fun (acc : List String × List String) src =>
    match resolver src with
    | none => acc
    | some absoluteUrl =>
      if mightBeImage absoluteUrl then
        let urlHash := md5Str (normalizedKey absoluteUrl)
        if urlHash ∈ acc.1 then acc
        else (acc.1 ++ [urlHash], acc.2 ++ [absoluteUrl])
      else acc) ([], [])).2

/-- Reference function used to state the first-occurrence-wins property:
the resolved URL of the first candidate that passes the image filter and
carries the given normalized key. -/
def firstValid (resolver : String → Option String) (cands : List String)
    (key : String) : Option String :=
  cands.findSome? (fun src =>
    match resolver src with
    | none => none
    | some absoluteUrl =>
      if mightBeImage absoluteUrl && normalizedKey absoluteUrl = key then
        some absoluteUrl
      else none)

/-- Model of `imageUrl.match(/data:image\/([^;]+)/)`: leftmost occurrence
of the literal `data:image/` that is followed by at least one character
other than a semicolon; the greedy capture runs to the next semicolon or
the end of the string. -/
def dataImageCapture : List Char → Option (List Char)
  | [] => none
  | c :: cs =>
    let cand := ("data:image/".data).isPrefixOf (c :: cs)
    if cand then
      match ((c :: cs).drop 11).takeWhile (fun x => x ≠ ';') with
      | [] => dataImageCapture cs
      | cap => some cap
    else dataImageCapture cs

/-- One attempt of the URL extension regex
`/\.(jpg|jpeg|png|gif|webp|svg|bmp|ico|tiff|tif|avif|jfif|pjpeg|pjp)(\?|#|$)/i`
at a fixed position: the alternatives are tried in source order and must be
followed by a question mark, a hash sign, or the end of the string. -/
def urlExtTryHere (cs : List Char) : Option String :=
  imageExtList.findSome? (fun e =>
    let pat := ("." ++ e).data
    if pat.isPrefixOf cs then
      match cs.drop pat.length with
      | [] => some e
      | c :: _ => if c = '?' || c = '#' then some e else none
    else none)

/-- Leftmost-match scan of the URL extension regex over the lowercased
URL. -/
def urlExtScan : List Char → Option String
  | [] => none
  | c :: rest =>
    match urlExtTryHere (c :: rest) with
    | some e => some e
    | none => urlExtScan rest

/-- Outcome of one asset fetch, as the download loop observes it: a body
with its declared content type, a response with a non-2xx status (the
`!imageResponse.ok` early return), or an abort — the ten-second timeout
firing or a transport error, both of which surface as a rejected promise
caught by the per-item handler.  Bytes are octets, modeled as `Nat`. -/
inductive FetchOutcome where
  | ok (bytes : List Nat) (contentType : Option String)
  | status (code : Nat)
  | aborted
  deriving DecidableEq

/-- True for the two failing constructors of `FetchOutcome`. -/
def fetchFails : FetchOutcome → Bool
  | .ok _ _ => false
  | .status _ => true
  | .aborted => true

/-- Accumulated archive state of one run: the file entries
`(folder, filename, bytes)` in insertion order, and the set of content
hashes recorded so far (`downloadedHashes`). -/
structure ZipState where
  entries : List (String × String × List Nat)
  hashes : List String
  deriving DecidableEq

/-- Filenames already present in one folder of the archive (the
`folder?.file(finalFilename)` lookup). -/
def folderNames (st : ZipState) (folder : String) : List String :=
  st.entries.filterMap (fun e => if e.1 = folder then some e.2.1 else none)

/-- Candidate filename tried by the collision loop at counter `k`:
the sanitized filename itself for `k = 0`, and
`${nameWithoutExt}_${k}${ext}` for the positive counters. -/
def collisionCandidate (filename : String) (k : Nat) : String :=
  if k = 0 then filename
  else (splitExt filename).1 ++ "_" ++ Nat.repr k ++ (splitExt filename).2

/-- The collision `while` loop: try candidates from counter `k` upward
until one is not taken.  The loop of the source is unbounded; the fuel is
an artifact of the embedding, and `resolveCollision` supplies enough fuel
for the exhaustion branch to be unreachable (proved below). -/
def resolveCollisionAux (taken : List String) (filename : String) :
    Nat → Nat → String
  | k, 0 => collisionCandidate filename k
  | k, fuel + 1 =>
    if collisionCandidate filename k ∈ taken then
      resolveCollisionAux taken filename (k + 1) fuel
    else collisionCandidate filename k

/-- Model of the duplicate-filename loop: starting from the sanitized
filename, insert `_1`, `_2`, … before the extension until the name is free
within the folder. -/
def resolveCollision (taken : List String) (filename : String) : String :=
  resolveCollisionAux taken filename 0 (taken.length + 2)

/-- Model of `folder?.file(finalFilename, imageBuffer)` preceded by the
collision loop: returns the new state and the final filename used. -/
def addToZip (st : ZipState) (folder filename : String) (bytes : List Nat) :
    ZipState × String :=
  let final := resolveCollision (folderNames st folder) filename
  ({ st with entries := st.entries ++ [(folder, final, bytes)] }, final)

/-- Folder classification of a network-fetched asset, with the four
keyword checks and the priority order of the source
(icons, then logos, then svgs, then banners, default images). -/
def classifyFolder (imageUrl filename pathname : String)
    (contentType : Option String) : String :=
  let lowerUrl := jsToLower imageUrl
  let lowerFilename := jsToLower filename
  let isIcon :=
    strContains lowerUrl "favicon" || strContains lowerUrl "icon" ||
    strContains lowerUrl "apple-touch" || strContains lowerUrl "apple-icon" ||
    strContains lowerUrl "mask-icon" || strContains lowerUrl "fluid-icon" ||
    strContains lowerFilename "favicon" || strContains lowerFilename "icon" ||
    pathname = "/favicon.ico" || pathname = "/favicon.png" ||
    pathname = "/favicon.gif" || pathname = "/favicon.svg" ||
    strContains lowerUrl "shortcut" || strContains lowerUrl "manifest"
  let isLogo :=
    strContains lowerUrl "logo" || strContains lowerFilename "logo" ||
    strContains lowerUrl "brand" || strContains lowerFilename "brand"
  let isSvg :=
    strContains lowerUrl ".svg" || strContains lowerFilename ".svg" ||
    (match contentType with
     | some ct => strContains ct "svg"
     | none => false)
  let isBanner :=
    strContains lowerUrl "banner" || strContains lowerFilename "banner" ||
    strContains lowerUrl "hero" || strContains lowerFilename "hero"
  if isIcon then "icons"
  else if isLogo then "logos"
  else if isSvg then "svgs"
  else if isBanner then "banners"
  else "images"

/-- Extension inferred from a declared content type, with the `includes`
chain of the source in order and `.jpg` as the default. -/
def extFromContentType (ct : String) : String :=
  if strContains ct "png" then ".png"
  else if strContains ct "gif" then ".gif"
  else if strContains ct "webp" then ".webp"
  else if strContains ct "svg" then ".svg"
  else if strContains ct "icon" || strContains ct "x-icon" then ".ico"
  else if strContains ct "avif" then ".avif"
  else if strContains ct "bmp" then ".bmp"
  else if strContains ct "tiff" then ".tiff"
  else if strContains ct "jpeg" then ".jpg"
  else ".jpg"

/-- One run of either handler, with every call to an external capability
made explicit: `bodyOk` is `request.json()` succeeding, `urlProvided` and
`urlValid` the two input guards, `pageFetch` the page download
(`none` models the fetch throwing, `some ok` a response), `extracted` the
raw candidate strings the HTML/CSS extraction passes collected in
insertion order (before the unconditional favicon probe), `resolver` the
`new URL(src, targetUrl).href` capability, `md5Str` and `md5Bytes` the MD5
hex digests of strings and of bodies, `fetchAsset` the per-asset GET,
`pathname` the `new URL(u).pathname` capability, `decode64` the
`Buffer.from(s, "base64")` decoder, `hostname` the page hostname, and
`zipOk` the archive serialization succeeding. -/
structure RunConfig where
  bodyOk : Bool
  urlProvided : Bool
  urlValid : Bool
  hostname : String
  pageFetch : Option Bool
  extracted : List String
  resolver : String → Option String
  md5Str : String → String
  md5Bytes : List Nat → String
  fetchAsset : String → FetchOutcome
  pathname : String → String
  decode64 : String → List Nat
  zipOk : Bool

/-- Candidate set actually fed to normalization: the extracted strings
inserted into a JavaScript `Set`, followed by the unconditional insertion
of the eight conventional favicon paths. -/
def candidateList (cfg : RunConfig) : List String :=
  commonFaviconPaths.foldl setInsert (cfg.extracted.foldl setInsert [])

/-- One iteration of the download loop, translated from the shared item
body of the two handlers.  Returns the new archive state and
`some finalFilename` when an entry was stored, `none` when the item was
skipped (non-2xx status, abort, duplicate content hash, or the
`Buffer.from(undefined, "base64")` TypeError raised for a `data:` URL with
no comma). -/
def processItem (cfg : RunConfig) (imageUrl : String) (index : Nat)
    (st : ZipState) : ZipState × Option String :=
  if strStartsWith imageUrl "data:image/" then
    match (strSplitOn imageUrl ',').drop 1 with
    | [] => (st, none)
    | base64Data :: _ =>
      let mimeType := ((dataImageCapture imageUrl.data).map
        (fun cs => String.mk cs)).getD "svg"
      let bytes := cfg.decode64 base64Data
      let filename := "inline_" ++ mimeType ++ "_" ++ Nat.repr (index + 1) ++
        "." ++ mimeType
      let folder := if mimeType = "svg" then "svgs" else "images"
      let res := addToZip st folder (sanitizeFilename filename) bytes
      (res.1, some res.2)
  else
    match cfg.fetchAsset imageUrl with
    | .status _ => (st, none)
    | .aborted => (st, none)
    | .ok bytes contentType =>
      let contentHash := cfg.md5Bytes bytes
      if contentHash ∈ st.hashes then (st, none)
      else
        let st1 : ZipState := { st with hashes := st.hashes ++ [contentHash] }
        let pathname := cfg.pathname imageUrl
        let popped := (strSplitOn pathname '/').getLastD ""
        let filename0 := if popped = "" then "image_" ++ Nat.repr (index + 1)
          else popped
        let folder := classifyFolder imageUrl filename0 pathname contentType
        let filename1 :=
          if !(strContains filename0 ".") || strEndsWith filename0 "/" then
            let extension :=
              match contentType with
              | some ct => extFromContentType ct
              | none =>
                match urlExtScan (jsToLower imageUrl).data with
                | some e => "." ++ e
                | none => ".jpg"
            let base := dropTrailingSlash filename0
            let base := if base = "" then "image_" ++ Nat.repr (index + 1)
              else base
            base ++ extension
          else filename0
        let res := addToZip st1 folder (sanitizeFilename filename1) bytes
        (res.1, some res.2)

/-- Per-item observability record of a run: the URL of the item, whether a
network fetch was attempted for it (exactly the non-`data:` items, each
fetched once), and the final filename of the stored entry when one was
produced. -/
structure ItemTrace where
  url : String
  fetched : Bool
  added : Option String
  deriving DecidableEq

/-- Sequential processing of the resolved URL list from a given index and
state, collecting the per-item traces. -/
def runDownloadsAux (cfg : RunConfig) :
    List String → Nat → ZipState → ZipState × List ItemTrace
  | [], _, st => (st, [])
  | u :: rest, index, st =>
    let step := processItem cfg u index st
    let restRun := runDownloadsAux cfg rest (index + 1) step.1
    (restRun.1,
      { url := u, fetched := !strStartsWith u "data:image/",
        added := step.2 } :: restRun.2)

/-- The whole download phase over the deduplicated URL list. -/
def runDownloads (cfg : RunConfig) (urls : List String) :
    ZipState × List ItemTrace :=
  runDownloadsAux cfg urls 0 { entries := [], hashes := [] }

/-- Outcome of the batch handler: the three JSON error responses with
their HTTP status categories (400, 404, 500), or the ZIP success response
with its entries and its content-disposition filename. -/
inductive BatchResult where
  | clientError (message : String)
  | notFound (message : String)
  | serverError (message : String)
  | archive (entries : List (String × String × List Nat)) (filename : String)
  deriving DecidableEq

/-- Model of the archive filename derivation:
`hostname.replace(/^www\./, "").replace(/[^a-zA-Z0-9.-]/g, "_")` followed
by the `_images.zip` suffix. -/
def zipFilename (hostname : String) : String :=
  let h := if strStartsWith hostname "www." then String.mk (hostname.data.drop 4)
    else hostname
  String.mk (h.data.map (fun c =>
    if c.isAlphanum || c = '.' || c = '-' then c else '_')) ++ "_images.zip"

/-- The batch handler end to end: input guards, page fetch, candidate
normalization, the `absoluteImageUrls.length === 0` branch, the download
loop, and archive serialization. -/
def runBatch (cfg : RunConfig) : BatchResult :=
  if !cfg.bodyOk then .serverError "Internal server error"
  else if !cfg.urlProvided then .clientError "URL is required"
  else if !cfg.urlValid then .clientError "Invalid URL"
  else
    match cfg.pageFetch with
    | none => .serverError "Internal server error"
    | some false => .clientError "Failed to fetch webpage"
    | some true =>
      let urls := processUrls cfg.resolver cfg.md5Str (candidateList cfg)
      if urls.isEmpty then .notFound "No images found on the webpage"
      else
        let st := (runDownloads cfg urls).1
        if !cfg.zipOk then .serverError "Internal server error"
        else .archive st.entries (zipFilename cfg.hostname)

/-- One server-sent event of the streaming handler: a progress record, an
error record, or the terminal record carrying the archive (which also
reports percentage 100). -/
inductive SSEvent where
  | progressEvt (percentage : Nat) (stage : String) (total completed : Nat)
      (currentFile : Option String)
  | errorEvt (message : String)
  | archiveEvt (percentage : Nat) (stage : String) (total completed : Nat)
      (filename : String)
  deriving DecidableEq

/-- An event that closes the stream: an error record or the archive
record. -/
def isTerminal : SSEvent → Bool
  | .errorEvt _ => true
  | .archiveEvt _ _ _ _ _ => true
  | .progressEvt _ _ _ _ _ => false

/-- The percentage carried by an event, when it carries one. -/
def eventPercentage : SSEvent → Option Nat
  | .progressEvt p _ _ _ _ => some p
  | .archiveEvt p _ _ _ _ => some p
  | .errorEvt _ => none

/-- Model of `30 + Math.round((completed / total) * 60)` over exact
rationals: `Math.round` is floor of the value plus one half (ties round
up, as in JavaScript). -/
def itemProgress (completed total : Nat) : Nat :=
  30 + (120 * completed + total) / (2 * total)

/-- Progress record enqueued after one item of the streaming loop: one
event when the item stored an entry (the handler increments `completed` on
every path of the item body, so at the event of item `index` the counter
reads `index + 1`), no event when the item was skipped. -/
def streamItemEvents (total index : Nat) (added : Option String) : List SSEvent :=
  match added with
  | some final =>
    [.progressEvt (itemProgress (index + 1) total)
      ("Downloaded " ++ Nat.repr (index + 1) ++ "/" ++ Nat.repr total ++
        " images...") total (index + 1) (some final)]
  | none => []

/-- The download loop of the streaming handler: identical item processing,
plus one progress event per stored entry. -/
def runStreamItemsAux (cfg : RunConfig) (total : Nat) :
    List String → Nat → ZipState → ZipState × List SSEvent
  | [], _, st => (st, [])
  | u :: rest, index, st =>
    let step := processItem cfg u index st
    let restRun := runStreamItemsAux cfg total rest (index + 1) step.1
    (restRun.1, streamItemEvents total index step.2 ++ restRun.2)

/-- The streaming handler end to end, as the sequence of events it
enqueues before closing the stream.  Failures of `request.json()`, of the
page fetch, and of archive serialization all land in the outer catch,
which enqueues the generic error record. -/
def runStream (cfg : RunConfig) : List SSEvent :=
  if !cfg.bodyOk then [.errorEvt "Internal server error"]
  else if !cfg.urlProvided then [.errorEvt "URL is required"]
  else
    [SSEvent.progressEvt 0 "Validating URL..." 0 0 none] ++
    if !cfg.urlValid then [SSEvent.errorEvt "Invalid URL"]
    else
      [SSEvent.progressEvt 5 "Fetching webpage..." 0 0 none] ++
      match cfg.pageFetch with
      | none => [SSEvent.errorEvt "Internal server error"]
      | some false => [SSEvent.errorEvt "Failed to fetch webpage"]
      | some true =>
        [SSEvent.progressEvt 15 "Analyzing webpage for images..." 0 0 none,
         SSEvent.progressEvt 25 "Processing and filtering images..." 0 0 none] ++
        let urls := processUrls cfg.resolver cfg.md5Str (candidateList cfg)
        if urls.isEmpty then [SSEvent.errorEvt "No images found on the webpage"]
        else
          let total := urls.length
          [SSEvent.progressEvt 30
            ("Found " ++ Nat.repr total ++ " images. Starting downloads...")
            total 0 none] ++
          (runStreamItemsAux cfg total urls 0 { entries := [], hashes := [] }).2 ++
          [SSEvent.progressEvt 95 "Creating ZIP file..." total total none] ++
          if !cfg.zipOk then [SSEvent.errorEvt "Internal server error"]
          else
            [SSEvent.archiveEvt 100 "Complete! Starting download..." total total
              (zipFilename cfg.hostname)]

/-- Modelled from the spec: the known image magic-number signatures named
by the validation requirement (JPEG FF D8 FF, PNG 89 50 4E 47, GIF 47 49
46, WebP RIFF 52 49 46 46, BMP 42 4D).  The handlers contain no such
check; this definition exists to state what the spec demands. -/
def specImageSignature (bytes : List Nat) : Bool :=
  [0xFF, 0xD8, 0xFF].isPrefixOf bytes ||
  [0x89, 0x50, 0x4E, 0x47].isPrefixOf bytes ||
  [0x47, 0x49, 0x46].isPrefixOf bytes ||
  [0x52, 0x49, 0x46, 0x46].isPrefixOf bytes ||
  [0x42, 0x4D].isPrefixOf bytes

/-- Decimal digits of a natural number, least significant first, written
as a structurally transparent companion to the fuel-based
`Nat.toDigitsCore` of core (related to it and to `Nat.repr` below). -/
def natDigitsRev (n : Nat) : List Char :=
  if _ : n < 10 then [Nat.digitChar n]
  else Nat.digitChar (n % 10) :: natDigitsRev (n / 10)
decreasing_by exact Nat.div_lt_self (by omega) (by omega)

/-- Value of a least-significant-first decimal digit list; inverse of
`natDigitsRev`. -/
def valRev : List Char → Nat
  | [] => 0
  | c :: cs => (c.toNat - 48) + 10 * valRev cs

/-- The per-folder filename uniqueness invariant of the archive: no two
entries agree on both folder and filename. -/
def entriesOk (l : List (String × String × List Nat)) : Prop :=
  l.Pairwise (fun a b => a.1 = b.1 → a.2.1 ≠ b.2.1)

/-- The full accumulator of the normalization fold: seen URL-hash keys and
kept absolute URLs, both in insertion order. -/
def processAcc (resolver : String → Option String) (md5Str : String → String)
    (cands : List String) : List String × List String :=
  cands.foldl (fun (acc : List String × List String) src =>
    match resolver src with
    | none => acc
    | some absoluteUrl =>
      if mightBeImage absoluteUrl then
        let urlHash := md5Str (normalizedKey absoluteUrl)
        if urlHash ∈ acc.1 then acc
        else (acc.1 ++ [urlHash], acc.2 ++ [absoluteUrl])
      else acc) ([], [])

/-- The apostrophe (single-quote) character, written via its code point. -/
def apostropheChar : Char := Char.ofNat 39

/-- Neutral run configuration used as the base of the concrete runs in the
witnesses and counterexamples below. -/
def defaultConfig : RunConfig where
  bodyOk := true
  urlProvided := true
  urlValid := true
  hostname := "x.test"
  pageFetch := some true
  extracted := []
  resolver := fun _ => none
  md5Str := fun s => s
  md5Bytes := fun b => Nat.repr (b.headD 0)
  fetchAsset := fun _ => FetchOutcome.aborted
  pathname := fun _ => "/"
  decode64 := fun _ => []
  zipOk := true

/-- Concrete run for the size/signature boundary: the only asset answers
with a single byte that matches no image signature. -/
def tinyBodyConfig : RunConfig :=
  { defaultConfig with
    fetchAsset := fun _ => FetchOutcome.ok [0] none
    pathname := fun _ => "/a.bin" }

/-- Concrete run in which discovery finds the eight favicon probes and
every single fetch aborts. -/
def allFailConfig : RunConfig :=
  { defaultConfig with
    resolver := fun s => some ("http://x.test" ++ s)
    fetchAsset := fun _ => FetchOutcome.aborted }

/-- Concrete run for the filename-collision scenario: two distinct logo
URLs with different bodies, both resolving to the filename `logo.png`. -/
def logoCollisionConfig : RunConfig :=
  { defaultConfig with
    fetchAsset := fun u =>
      if u = "http://a/logo.png" then FetchOutcome.ok [1] none
      else FetchOutcome.ok [2] none
    pathname := fun _ => "/logo.png" }

/-- Concrete run for content-hash deduplication: every URL answers with
the same body. -/
def sameBodyConfig : RunConfig :=
  { defaultConfig with
    fetchAsset := fun _ => FetchOutcome.ok [7] none
    pathname := fun _ => "/a.png" }

/-- Concrete run whose asset filename contains an apostrophe, as a URL
path may: the external URL parser percent-encodes control characters and
double quotes in paths, but keeps single quotes. -/
def apostropheConfig : RunConfig :=
  { defaultConfig with
    fetchAsset := fun _ => FetchOutcome.ok [3] none
    pathname := fun _ => String.mk ['/', 'o', apostropheChar, 'b', '.', 'p', 'n', 'g'] }

theorem natDigitsRev_toDigitsCore (fuel : Nat) :
    ∀ n ds, n < fuel →
      Nat.toDigitsCore 10 fuel n ds = (natDigitsRev n).reverse ++ ds := by
  induction fuel with
  | zero => intro n ds h; omega
  | succ fuel ih =>
    intro n ds h
    rw [natDigitsRev]
    by_cases h10 : n < 10
    · have hdiv : n / 10 = 0 := Nat.div_eq_of_lt h10
      have hmod : n % 10 = n := Nat.mod_eq_of_lt h10
      simp [Nat.toDigitsCore, hdiv, hmod, h10]
    · have hdiv : n / 10 ≠ 0 := by
        intro hz
        exact h10 (by omega : n < 10)
      have hlt : n / 10 < fuel := by
        have := Nat.div_lt_self (by omega : 0 < n) (by omega : 1 < 10)
        omega
      simp only [Nat.toDigitsCore, hdiv, if_false, h10, dite_false]
      rw [ih (n / 10) (Nat.digitChar (n % 10) :: ds) hlt]
      simp

theorem natRepr_eq (n : Nat) : Nat.repr n = String.mk (natDigitsRev n).reverse := by
  show (Nat.toDigits 10 n).asString = _
  rw [Nat.toDigits, natDigitsRev_toDigitsCore (n + 1) n [] (Nat.lt_succ_self n)]
  simp [List.asString]

theorem digitChar_val (d : Nat) (h : d < 10) : (Nat.digitChar d).toNat - 48 = d := by
  interval_cases d <;> rfl

theorem valRev_natDigitsRev (n : Nat) : valRev (natDigitsRev n) = n := by
  induction n using Nat.strong_induction_on with
  | _ n ih =>
    rw [natDigitsRev]
    by_cases h10 : n < 10
    · simp [h10, valRev, digitChar_val n h10]
    · have hlt : n / 10 < n := Nat.div_lt_self (by omega) (by omega)
      simp only [h10, dite_false, valRev, ih (n / 10) hlt,
        digitChar_val (n % 10) (Nat.mod_lt n (by omega))]
      omega

theorem natRepr_data_inj {i j : Nat}
    (h : (Nat.repr i).data = (Nat.repr j).data) : i = j := by
  rw [natRepr_eq, natRepr_eq] at h
  simp only [String.mk] at h
  have h2 : natDigitsRev i = natDigitsRev j := by
    have := congrArg List.reverse h
    simpa using this
  have := congrArg valRev h2
  rwa [valRev_natDigitsRev, valRev_natDigitsRev] at this

theorem natDigitsRev_isDigit (n : Nat) : ∀ c ∈ natDigitsRev n, c.isDigit = true := by
  induction n using Nat.strong_induction_on with
  | _ n ih =>
    rw [natDigitsRev]
    have hd : ∀ d : Nat, d < 10 → (Nat.digitChar d).isDigit = true := by
      intro d hlt; interval_cases d <;> rfl
    by_cases h10 : n < 10
    · simpa [h10] using hd n h10
    · have hlt : n / 10 < n := Nat.div_lt_self (by omega) (by omega)
      simp only [h10, dite_false, List.mem_cons]
      rintro c (rfl | hc)
      · exact hd (n % 10) (Nat.mod_lt n (by omega))
      · exact ih (n / 10) hlt c hc

theorem natRepr_isDigit (n : Nat) : ∀ c ∈ (Nat.repr n).data, c.isDigit = true := by
  rw [natRepr_eq]
  intro c hc
  exact natDigitsRev_isDigit n c (List.mem_reverse.mp hc)

theorem collisionCandidate_inj (f : String) {i j : Nat} (hi : i ≠ 0) (hj : j ≠ 0)
    (h : collisionCandidate f i = collisionCandidate f j) : i = j := by
  unfold collisionCandidate at h
  rw [if_neg hi, if_neg hj] at h
  have hd := congrArg String.data h
  simp only [String.data_append] at hd
  have h1 := List.append_cancel_left (List.append_cancel_right hd)
  exact natRepr_data_inj h1

theorem resolveCollisionAux_not_mem (taken : List String) (f : String) :
    ∀ fuel k, (∃ m, k ≤ m ∧ m < k + fuel ∧ collisionCandidate f m ∉ taken) →
      resolveCollisionAux taken f k fuel ∉ taken := by
  intro fuel
  induction fuel with
  | zero =>
    rintro k ⟨m, h1, h2, _⟩
    omega
  | succ fuel ih =>
    rintro k ⟨m, h1, h2, h3⟩
    simp only [resolveCollisionAux]
    by_cases hk : collisionCandidate f k ∈ taken
    · rw [if_pos hk]
      apply ih (k + 1)
      refine ⟨m, ?_, by omega, h3⟩
      rcases Nat.eq_or_lt_of_le h1 with rfl | hlt
      · exact absurd hk h3
      · omega
    · rwa [if_neg hk]

theorem resolveCollision_not_mem (taken : List String) (f : String) :
    resolveCollision taken f ∉ taken := by
  apply resolveCollisionAux_not_mem
  by_contra hall
  push_neg at hall
  have hinj : Function.Injective (fun i : Nat => collisionCandidate f (i + 1)) := by
    intro a b hab
    have := collisionCandidate_inj f (Nat.succ_ne_zero a) (Nat.succ_ne_zero b) hab
    omega
  have hnodup : ((List.range (taken.length + 1)).map
      (fun i => collisionCandidate f (i + 1))).Nodup :=
    (List.nodup_range _).map hinj
  have hsub : ((List.range (taken.length + 1)).map
      (fun i => collisionCandidate f (i + 1))) ⊆ taken := by
    intro x hx
    rcases List.mem_map.mp hx with ⟨i, hi, rfl⟩
    have hi2 := List.mem_range.mp hi
    exact hall (i + 1) (by omega) (by omega)
  have hlen := (hnodup.subperm hsub).length_le
  simp at hlen

theorem folderNames_mem {st : ZipState} {folder name : String}
    (h : ∃ e ∈ st.entries, e.1 = folder ∧ e.2.1 = name) :
    name ∈ folderNames st folder := by
  rcases h with ⟨e, he, h1, h2⟩
  unfold folderNames
  exact List.mem_filterMap.mpr ⟨e, he, by rw [if_pos h1, h2]⟩

theorem addToZip_entriesOk {st2 : ZipState} (h : entriesOk st2.entries)
    (folder filename : String) (bytes : List Nat) :
    entriesOk (addToZip st2 folder filename bytes).1.entries := by
  unfold addToZip entriesOk
  simp only
  rw [List.pairwise_append]
  refine ⟨h, List.pairwise_singleton _ _, ?_⟩
  intro a ha b hb
  simp only [List.mem_singleton] at hb
  subst hb
  intro hfold heq
  exact resolveCollision_not_mem (folderNames st2 folder) filename
    (folderNames_mem ⟨a, ha, hfold, heq⟩)

theorem processItem_fail (cfg : RunConfig) {u : String} (index : Nat) (st : ZipState)
    (hu : strStartsWith u "data:image/" = false)
    (hf : fetchFails (cfg.fetchAsset u) = true) :
    processItem cfg u index st = (st, none) := by
  cases hfetch : cfg.fetchAsset u with
  | ok b ct => rw [hfetch] at hf; simp [fetchFails] at hf
  | status c => simp [processItem, hu, hfetch]
  | aborted => simp [processItem, hu, hfetch]

theorem processItem_hashes (cfg : RunConfig) (u : String) (index : Nat) (st : ZipState) :
    ∃ tail, (processItem cfg u index st).1.hashes = st.hashes ++ tail := by
  unfold processItem
  by_cases hd : strStartsWith u "data:image/"
  · simp only [hd, if_true]
    cases hsplit : (strSplitOn u ',').drop 1 with
    | nil => exact ⟨[], by simp⟩
    | cons b rest => exact ⟨[], by simp [addToZip]⟩
  · simp only [hd]
    cases hfetch : cfg.fetchAsset u with
    | ok b ct =>
      simp only
      by_cases hmem : cfg.md5Bytes b ∈ st.hashes
      · exact ⟨[], by simp [hmem]⟩
      · exact ⟨[cfg.md5Bytes b], by simp [hmem, addToZip]⟩
    | status c => exact ⟨[], by simp⟩
    | aborted => exact ⟨[], by simp⟩

theorem processItem_records (cfg : RunConfig) {u : String} (index : Nat) (st : ZipState)
    {b : List Nat} {ct : Option String}
    (hu : strStartsWith u "data:image/" = false)
    (hfetch : cfg.fetchAsset u = .ok b ct) :
    cfg.md5Bytes b ∈ (processItem cfg u index st).1.hashes := by
  unfold processItem
  simp only [hu, hfetch]
  by_cases hmem : cfg.md5Bytes b ∈ st.hashes
  · simp only [hmem, if_true]
    exact hmem
  · simp [hmem, addToZip]

theorem processItem_dup_skip (cfg : RunConfig) {u : String} (index : Nat) (st : ZipState)
    {b : List Nat} {ct : Option String}
    (hu : strStartsWith u "data:image/" = false)
    (hfetch : cfg.fetchAsset u = .ok b ct)
    (hmem : cfg.md5Bytes b ∈ st.hashes) :
    processItem cfg u index st = (st, none) := by
  unfold processItem
  simp [hu, hfetch, hmem]

theorem processItem_entriesOk (cfg : RunConfig) (u : String) (index : Nat)
    {st : ZipState} (h : entriesOk st.entries) :
    entriesOk (processItem cfg u index st).1.entries := by
  unfold processItem
  by_cases hd : strStartsWith u "data:image/"
  · simp only [hd, if_true]
    cases hsplit : (strSplitOn u ',').drop 1 with
    | nil => exact h
    | cons b rest => exact addToZip_entriesOk h _ _ _
  · simp only [hd]
    cases hfetch : cfg.fetchAsset u with
    | ok b ct =>
      simp only
      by_cases hmem : cfg.md5Bytes b ∈ st.hashes
      · simp only [hmem, if_true]
        exact h
      · simp only [hmem, if_false]
        exact @addToZip_entriesOk { st with hashes := st.hashes ++ [cfg.md5Bytes b] } h _ _ _
    | status c => exact h
    | aborted => exact h

theorem processItem_data_hashes (cfg : RunConfig) {u : String} (index : Nat)
    (st : ZipState) (hd : strStartsWith u "data:image/" = true) :
    (processItem cfg u index st).1.hashes = st.hashes := by
  unfold processItem
  simp only [hd, if_true]
  cases hsplit : (strSplitOn u ',').drop 1 with
  | nil => rfl
  | cons b rest => simp [addToZip]

theorem processItem_data_adds (cfg : RunConfig) {u : String} (index : Nat)
    (st : ZipState) (hd : strStartsWith u "data:image/" = true)
    (hc : (strSplitOn u ',').drop 1 ≠ []) :
    ((processItem cfg u index st).2).isSome = true := by
  unfold processItem
  simp only [hd, if_true]
  cases hsplit : (strSplitOn u ',').drop 1 with
  | nil => exact absurd hsplit hc
  | cons b rest => simp

theorem processItem_data_hash_blind (cfg : RunConfig) {u : String} (index : Nat)
    (ents : List (String × String × List Nat)) (hs hs2 : List String)
    (hd : strStartsWith u "data:image/" = true) :
    (processItem cfg u index ⟨ents, hs⟩).1.entries =
      (processItem cfg u index ⟨ents, hs2⟩).1.entries ∧
    (processItem cfg u index ⟨ents, hs⟩).2 = (processItem cfg u index ⟨ents, hs2⟩).2 := by
  unfold processItem
  simp only [hd, if_true]
  cases hsplit : (strSplitOn u ',').drop 1 with
  | nil => exact ⟨rfl, rfl⟩
  | cons b rest => simp [addToZip, folderNames]

theorem processItem_ok_adds (cfg : RunConfig) {u : String} (index : Nat)
    (st : ZipState) {b : List Nat} {ct : Option String}
    (hu : strStartsWith u "data:image/" = false)
    (hfetch : cfg.fetchAsset u = .ok b ct)
    (hfresh : cfg.md5Bytes b ∉ st.hashes) :
    (processItem cfg u index st).1.entries.map (fun e => e.2.2) =
      st.entries.map (fun e => e.2.2) ++ [b] ∧
    ((processItem cfg u index st).2).isSome = true := by
  unfold processItem
  simp only [hu, hfetch, hfresh, if_false, Bool.false_eq_true]
  constructor
  · simp [addToZip]
  · simp [addToZip]

theorem runDownloadsAux_nil (cfg : RunConfig) (index : Nat) (st : ZipState) :
    runDownloadsAux cfg [] index st = (st, []) := rfl

theorem runDownloadsAux_cons (cfg : RunConfig) (a : String) (rest : List String)
    (index : Nat) (st : ZipState) :
    runDownloadsAux cfg (a :: rest) index st =
      ((runDownloadsAux cfg rest (index + 1) (processItem cfg a index st).1).1,
        { url := a, fetched := !strStartsWith a "data:image/",
          added := (processItem cfg a index st).2 } ::
        (runDownloadsAux cfg rest (index + 1) (processItem cfg a index st).1).2) := rfl

theorem runDownloadsAux_trace (cfg : RunConfig) :
    ∀ (l : List String) (index : Nat) (st : ZipState),
      ((runDownloadsAux cfg l index st).2.map ItemTrace.url = l) ∧
      (∀ t ∈ (runDownloadsAux cfg l index st).2,
        t.fetched = !strStartsWith t.url "data:image/") := by
  intro l
  induction l with
  | nil => intro index st; simp [runDownloadsAux_nil]
  | cons a rest ih =>
    intro index st
    have h2 := ih (index + 1) (processItem cfg a index st).1
    constructor
    · rw [runDownloadsAux_cons]
      simp only [List.map_cons, List.cons.injEq]
      exact ⟨trivial, h2.1⟩
    · intro t ht
      rcases List.mem_cons.mp ht with rfl | ht2
      · dsimp only
      · exact h2.2 t ht2

theorem runDownloadsAux_state_const (cfg : RunConfig) :
    ∀ (l : List String) (index : Nat) (st : ZipState),
      (∀ u ∈ l, strStartsWith u "data:image/" = false ∧
        fetchFails (cfg.fetchAsset u) = true) →
      (runDownloadsAux cfg l index st).1 = st := by
  intro l
  induction l with
  | nil => intro index st _; rfl
  | cons a rest ih =>
    intro index st h
    have ha := h a (List.mem_cons_self a rest)
    have hstep : processItem cfg a index st = (st, none) :=
      processItem_fail cfg index st ha.1 ha.2
    simp only [runDownloadsAux, hstep]
    exact ih (index + 1) st (fun u hu => h u (List.mem_cons_of_mem a hu))

theorem runDownloadsAux_entriesOk (cfg : RunConfig) :
    ∀ (l : List String) (index : Nat) (st : ZipState),
      entriesOk st.entries →
      entriesOk (runDownloadsAux cfg l index st).1.entries := by
  intro l
  induction l with
  | nil => intro index st h; exact h
  | cons a rest ih =>
    intro index st h
    exact ih (index + 1) (processItem cfg a index st).1
      (processItem_entriesOk cfg a index h)

theorem runDownloadsAux_dup_after (cfg : RunConfig) {b : List Nat}
    {ct2 : Option String} {v : String}
    (hv : strStartsWith v "data:image/" = false)
    (hfv : cfg.fetchAsset v = .ok b ct2) :
    ∀ (l C : List String) (index : Nat) (st : ZipState),
      cfg.md5Bytes b ∈ st.hashes →
      ∃ T1 T2, (runDownloadsAux cfg (l ++ v :: C) index st).2 =
        T1 ++ ({ url := v, fetched := true, added := none } : ItemTrace) :: T2 ∧
        T1.length = l.length := by
  intro l
  induction l with
  | nil =>
    intro C index st hmem
    have hstep := processItem_dup_skip cfg index st hv hfv hmem
    refine ⟨[], (runDownloadsAux cfg C (index + 1) st).2, ?_, rfl⟩
    rw [List.nil_append, runDownloadsAux_cons, hstep]
    simp [hv]
  | cons a l ih =>
    intro C index st hmem
    rcases processItem_hashes cfg a index st with ⟨tail, htail⟩
    have hmem2 : cfg.md5Bytes b ∈ (processItem cfg a index st).1.hashes := by
      rw [htail]; exact List.mem_append_left _ hmem
    rcases ih C (index + 1) (processItem cfg a index st).1 hmem2 with
      ⟨T1, T2, heq, hlen⟩
    refine ⟨{ url := a, fetched := !strStartsWith a "data:image/",
              added := (processItem cfg a index st).2 } :: T1, T2, ?_,
      by simp [hlen]⟩
    rw [List.cons_append, runDownloadsAux_cons]
    simp [heq]

theorem runDownloadsAux_two_same (cfg : RunConfig) {u v : String} {b : List Nat}
    {ct1 ct2 : Option String}
    (hu : strStartsWith u "data:image/" = false)
    (hv : strStartsWith v "data:image/" = false)
    (hfu : cfg.fetchAsset u = .ok b ct1)
    (hfv : cfg.fetchAsset v = .ok b ct2) :
    ∀ (A B C : List String) (index : Nat) (st : ZipState),
      ∃ T1 T2, (runDownloadsAux cfg (A ++ u :: B ++ v :: C) index st).2 =
        T1 ++ ({ url := v, fetched := true, added := none } : ItemTrace) :: T2 ∧
        T1.length = A.length + 1 + B.length := by
  intro A
  induction A with
  | nil =>
    intro B C index st
    have hmem : cfg.md5Bytes b ∈ (processItem cfg u index st).1.hashes :=
      processItem_records cfg index st hu hfu
    rcases runDownloadsAux_dup_after cfg hv hfv B C (index + 1)
      (processItem cfg u index st).1 hmem with ⟨T1, T2, heq, hlen⟩
    refine ⟨{ url := u, fetched := !strStartsWith u "data:image/",
              added := (processItem cfg u index st).2 } :: T1, T2, ?_,
      by simp only [List.length_cons, List.length_nil, hlen]; omega⟩
    rw [List.nil_append, List.cons_append, runDownloadsAux_cons]
    simp [heq]
  | cons a A ih =>
    intro B C index st
    rcases ih B C (index + 1) (processItem cfg a index st).1 with ⟨T1, T2, heq, hlen⟩
    refine ⟨{ url := a, fetched := !strStartsWith a "data:image/",
              added := (processItem cfg a index st).2 } :: T1, T2, ?_,
      by simp only [List.length_cons, hlen]; omega⟩
    rw [List.cons_append, List.cons_append, runDownloadsAux_cons]
    simp only [List.append_assoc, List.cons_append] at heq
    simp [heq]

theorem firstValid_append_some {resolver : String → Option String}
    {cs : List String} {k w : String} (s : String)
    (h : firstValid resolver cs k = some w) :
    firstValid resolver (cs ++ [s]) k = some w := by
  unfold firstValid at h ⊢
  rw [List.findSome?_append, h]
  rfl

theorem firstValid_props {resolver : String → Option String}
    {cs : List String} {k w : String}
    (h : firstValid resolver cs k = some w) :
    mightBeImage w = true ∧ normalizedKey w = k ∧ ∃ s ∈ cs, resolver s = some w := by
  unfold firstValid at h
  rcases List.exists_of_findSome?_eq_some h with ⟨s, hs, hfs⟩
  cases hres : resolver s with
  | none => rw [hres] at hfs; cases hfs
  | some a =>
    rw [hres] at hfs
    simp only at hfs
    split at hfs
    · cases hfs
      rename_i hc
      simp only [Bool.and_eq_true, decide_eq_true_eq] at hc
      exact ⟨hc.1, hc.2, s, hs, hres⟩
    · cases hfs

theorem processAcc_snoc (resolver : String → Option String) (md5Str : String → String)
    (cs : List String) (src : String) :
    processAcc resolver md5Str (cs ++ [src]) =
      (match resolver src with
       | none => processAcc resolver md5Str cs
       | some a =>
         if mightBeImage a = true then
           if md5Str (normalizedKey a) ∈ (processAcc resolver md5Str cs).1 then
             processAcc resolver md5Str cs
           else ((processAcc resolver md5Str cs).1 ++ [md5Str (normalizedKey a)],
                 (processAcc resolver md5Str cs).2 ++ [a])
         else processAcc resolver md5Str cs) := by
  unfold processAcc
  rw [List.foldl_append]
  rfl

theorem processAcc_spec (resolver : String → Option String) (md5Str : String → String)
    (hinj : Function.Injective md5Str) (cands : List String) :
    ((processAcc resolver md5Str cands).1 =
      (processAcc resolver md5Str cands).2.map (fun u => md5Str (normalizedKey u))) ∧
    (((processAcc resolver md5Str cands).2.map normalizedKey).Nodup) ∧
    (∀ u ∈ (processAcc resolver md5Str cands).2,
      firstValid resolver cands (normalizedKey u) = some u) ∧
    (∀ src ∈ cands, ∀ a, resolver src = some a → mightBeImage a = true →
      normalizedKey a ∈ (processAcc resolver md5Str cands).2.map normalizedKey) := by
  induction cands using List.reverseRecOn with
  | nil => exact ⟨rfl, by simp [processAcc], by simp [processAcc], by simp⟩
  | append_singleton cs src ih =>
    obtain ⟨ih1, ih2, ih3, ih4⟩ := ih
    rw [processAcc_snoc]
    cases hres : resolver src with
    | none =>
      refine ⟨ih1, ih2, fun u hu => firstValid_append_some src (ih3 u hu), ?_⟩
      intro s hs a2 ha2 hm2
      rcases List.mem_append.mp hs with hs2 | hs2
      · exact ih4 s hs2 a2 ha2 hm2
      · simp only [List.mem_singleton] at hs2
        subst hs2
        rw [hres] at ha2
        cases ha2
    | some a =>
      simp only
      by_cases hmight : mightBeImage a = true
      · rw [if_pos hmight]
        by_cases hmem : md5Str (normalizedKey a) ∈ (processAcc resolver md5Str cs).1
        · rw [if_pos hmem]
          have hkey : normalizedKey a ∈
              (processAcc resolver md5Str cs).2.map normalizedKey := by
            rw [ih1] at hmem
            rcases List.mem_map.mp hmem with ⟨u, hu, hequ⟩
            exact List.mem_map.mpr ⟨u, hu, hinj hequ⟩
          refine ⟨ih1, ih2, fun u hu => firstValid_append_some src (ih3 u hu), ?_⟩
          intro s hs a2 ha2 hm2
          rcases List.mem_append.mp hs with hs2 | hs2
          · exact ih4 s hs2 a2 ha2 hm2
          · simp only [List.mem_singleton] at hs2
            subst hs2
            rw [hres] at ha2
            cases ha2
            exact hkey
        · rw [if_neg hmem]
          have hkeynot : normalizedKey a ∉
              (processAcc resolver md5Str cs).2.map normalizedKey := by
            intro hk
            rcases List.mem_map.mp hk with ⟨u, hu, hequ⟩
            exact hmem (ih1 ▸ List.mem_map.mpr ⟨u, hu, by rw [hequ]⟩)
          refine ⟨?_, ?_, ?_, ?_⟩
          · simp only [List.map_append, List.map_cons, List.map_nil]
            rw [ih1]
          · simp only [List.map_append, List.map_cons, List.map_nil]
            rw [List.nodup_append]
            refine ⟨ih2, List.nodup_singleton _, ?_⟩
            intro x hx hx2
            simp only [List.mem_singleton] at hx2
            subst hx2
            exact hkeynot hx
          · intro u hu
            rcases List.mem_append.mp hu with hu2 | hu2
            · exact firstValid_append_some src (ih3 u hu2)
            · simp only [List.mem_singleton] at hu2
              subst hu2
              have hnone : firstValid resolver cs (normalizedKey u) = none := by
                cases hfv : firstValid resolver cs (normalizedKey u) with
                | none => rfl
                | some w =>
                  rcases firstValid_props hfv with ⟨hw1, hw2, s2, hs2, hres2⟩
                  exact absurd (hw2 ▸ ih4 s2 hs2 w hres2 hw1) hkeynot
              unfold firstValid at hnone ⊢
              rw [List.findSome?_append, hnone, Option.none_or]
              simp [List.findSome?, hres, hmight]
          · intro s hs a2 ha2 hm2
            simp only [List.map_append, List.map_cons, List.map_nil]
            rcases List.mem_append.mp hs with hs2 | hs2
            · exact List.mem_append_left _ (ih4 s hs2 a2 ha2 hm2)
            · simp only [List.mem_singleton] at hs2
              subst hs2
              rw [hres] at ha2
              cases ha2
              exact List.mem_append_right _ (List.mem_singleton_self _)
      · rw [if_neg hmight]
        refine ⟨ih1, ih2, fun u hu => firstValid_append_some src (ih3 u hu), ?_⟩
        intro s hs a2 ha2 hm2
        rcases List.mem_append.mp hs with hs2 | hs2
        · exact ih4 s hs2 a2 ha2 hm2
        · simp only [List.mem_singleton] at hs2
          subst hs2
          rw [hres] at ha2
          cases ha2
          exact absurd hm2 hmight

theorem itemProgress_mono {c1 c2 : Nat} (t : Nat) (h : c1 ≤ c2) :
    itemProgress c1 t ≤ itemProgress c2 t := by
  unfold itemProgress
  have h2 : (120 * c1 + t) / (2 * t) ≤ (120 * c2 + t) / (2 * t) :=
    Nat.div_le_div_right (Nat.add_le_add_right (Nat.mul_le_mul_left 120 h) t)
  omega

theorem itemProgress_le_90 {c t : Nat} (hc : c ≤ t) (ht : 0 < t) :
    itemProgress c t ≤ 90 := by
  unfold itemProgress
  have h1 : 120 * c + t ≤ 121 * t := by omega
  have h2 : (120 * c + t) / (2 * t) ≤ 121 * t / (2 * t) :=
    Nat.div_le_div_right h1
  have h3 : 121 * t / (2 * t) < 61 := by
    rw [Nat.div_lt_iff_lt_mul (by omega : 0 < 2 * t)]
    omega
  omega

theorem itemProgress_ge_30 (c t : Nat) : 30 ≤ itemProgress c t :=
  Nat.le_add_right 30 _

theorem runStreamItemsAux_nil (cfg : RunConfig) (total index : Nat) (st : ZipState) :
    runStreamItemsAux cfg total [] index st = (st, []) := rfl

theorem runStreamItemsAux_cons (cfg : RunConfig) (total : Nat) (a : String)
    (rest : List String) (index : Nat) (st : ZipState) :
    runStreamItemsAux cfg total (a :: rest) index st =
      ((runStreamItemsAux cfg total rest (index + 1) (processItem cfg a index st).1).1,
        streamItemEvents total index (processItem cfg a index st).2 ++
        (runStreamItemsAux cfg total rest (index + 1) (processItem cfg a index st).1).2) :=
  rfl

theorem runStreamItemsAux_spec (cfg : RunConfig) (total : Nat) :
    ∀ (l : List String) (index : Nat) (st : ZipState), index + l.length ≤ total →
      (∀ e ∈ (runStreamItemsAux cfg total l index st).2, isTerminal e = false) ∧
      List.Chain' (fun a b => a ≤ b)
        (((runStreamItemsAux cfg total l index st).2).filterMap eventPercentage) ∧
      (∀ p ∈ ((runStreamItemsAux cfg total l index st).2).filterMap eventPercentage,
        itemProgress (index + 1) total ≤ p ∧ p ≤ 90) := by
  intro l
  induction l with
  | nil => intro index st h; simp [runStreamItemsAux_nil]
  | cons a rest ih =>
    intro index st h
    simp only [List.length_cons] at h
    obtain ⟨iht, ihc, ihb⟩ := ih (index + 1) (processItem cfg a index st).1 (by omega)
    rw [runStreamItemsAux_cons]
    simp only
    cases hstep : (processItem cfg a index st).2 with
    | none =>
      simp only [hstep, streamItemEvents, List.nil_append]
      refine ⟨iht, ihc, ?_⟩
      intro p hp
      obtain ⟨h1, h2⟩ := ihb p hp
      exact ⟨le_trans (itemProgress_mono total (by omega)) h1, h2⟩
    | some final =>
      simp only [hstep, streamItemEvents, List.cons_append, List.nil_append]
      refine ⟨?_, ?_, ?_⟩
      · intro e he
        rcases List.mem_cons.mp he with rfl | he2
        · rfl
        · exact iht e he2
      · simp only [List.filterMap_cons, eventPercentage]
        rw [List.chain'_cons']
        refine ⟨?_, ihc⟩
        intro b2 hb2
        have hmem := List.mem_of_mem_head? hb2
        exact le_trans (itemProgress_mono total (by omega)) (ihb b2 hmem).1
      · intro p hp
        simp only [List.filterMap_cons, eventPercentage] at hp
        rcases List.mem_cons.mp hp with rfl | hp2
        · exact ⟨Nat.le_refl _, itemProgress_le_90 (by omega) (by omega)⟩
        · obtain ⟨h1, h2⟩ := ihb p hp2
          exact ⟨le_trans (itemProgress_mono total (by omega)) h1, h2⟩

theorem collapseWsAux_chars (l : List Char) :
    ∀ (flag : Bool), (∀ c ∈ l, badFileChar c = false) →
      ∀ c ∈ collapseWsAux flag l, badFileChar c = false ∧ jsWhitespace c = false := by
  induction l with
  | nil => intro flag _ c hc; simp [collapseWsAux] at hc
  | cons a l ih =>
    intro flag hl c hc
    have hla : ∀ c ∈ l, badFileChar c = false :=
      fun c2 hc2 => hl c2 (List.mem_cons_of_mem a hc2)
    simp only [collapseWsAux] at hc
    cases hws : jsWhitespace a with
    | true =>
      rw [hws] at hc
      simp only [if_true] at hc
      cases flag with
      | true => exact ih true hla c hc
      | false =>
        simp only [Bool.false_eq_true, if_false] at hc
        rcases List.mem_cons.mp hc with rfl | hc2
        · exact ⟨by decide, by decide⟩
        · exact ih true hla c hc2
    | false =>
      rw [hws] at hc
      simp only [Bool.false_eq_true, if_false] at hc
      rcases List.mem_cons.mp hc with rfl | hc2
      · exact ⟨hl c (List.mem_cons_self c l), hws⟩
      · exact ih false hla c hc2

theorem sanitizeFilename_chars (f : String) :
    ∀ c ∈ (sanitizeFilename f).data,
      badFileChar c = false ∧ jsWhitespace c = false := by
  intro c hc
  have hmap : ∀ c2 ∈ f.data.map (fun x => if badFileChar x then '_' else x),
      badFileChar c2 = false := by
    intro c2 hc2
    rcases List.mem_map.mp hc2 with ⟨x, _, rfl⟩
    cases hx : badFileChar x with
    | true =>
      rw [show (if true = true then '_' else x) = '_' from rfl]
      decide
    | false => simp [hx]
  exact collapseWsAux_chars _ false hmap c hc

theorem splitExt_base_chars (f : String) :
    ∀ c ∈ (splitExt f).1.data, c ∈ f.data := by
  unfold splitExt
  simp only
  split
  · exact fun c hc => hc
  · split
    · rename_i restRev heq
      intro c hc
      have h1 : c ∈ restRev := by
        simpa using hc
      have h2 : c ∈ f.data.reverse.drop
          ((f.data.reverse.takeWhile (fun c => c ≠ '.' && c ≠ '/')).length) := by
        rw [heq]; exact List.mem_cons_of_mem _ h1
      have h3 : c ∈ f.data.reverse := List.drop_subset _ _ h2
      exact List.mem_reverse.mp h3
    · exact fun c hc => hc

theorem splitExt_ext_chars (f : String) :
    ∀ c ∈ (splitExt f).2.data, c ∈ f.data ∨ c = '.' := by
  unfold splitExt
  simp only
  split
  · intro c hc; simp at hc
  · split
    · intro c hc
      simp only at hc
      rcases List.mem_cons.mp hc with rfl | hc2
      · exact Or.inr rfl
      · have h1 : c ∈ f.data.reverse.takeWhile (fun c => c ≠ '.' && c ≠ '/') := by
          simpa using hc2
        have h2 : c ∈ f.data.reverse := ((List.takeWhile_prefix _).sublist).mem h1
        exact Or.inl (List.mem_reverse.mp h2)
    · intro c hc; simp at hc

theorem natDigitsRev_mem_digits (n : Nat) :
    ∀ c ∈ natDigitsRev n,
      c ∈ (['0', '1', '2', '3', '4', '5', '6', '7', '8', '9'] : List Char) := by
  induction n using Nat.strong_induction_on with
  | _ n ih =>
    have hd : ∀ d : Nat, d < 10 →
        Nat.digitChar d ∈ (['0', '1', '2', '3', '4', '5', '6', '7', '8', '9'] : List Char) := by
      intro d hlt; interval_cases d <;> decide
    intro c hc
    rw [natDigitsRev] at hc
    by_cases h10 : n < 10
    · rw [dif_pos h10] at hc
      rcases List.mem_singleton.mp hc with rfl
      exact hd n h10
    · have hlt : n / 10 < n := Nat.div_lt_self (by omega) (by omega)
      rw [dif_neg h10] at hc
      rcases List.mem_cons.mp hc with rfl | hc2
      · exact hd (n % 10) (Nat.mod_lt n (by omega))
      · exact ih (n / 10) hlt c hc2

theorem natRepr_chars (n : Nat) :
    ∀ c ∈ (Nat.repr n).data,
      c ∈ (['0', '1', '2', '3', '4', '5', '6', '7', '8', '9'] : List Char) := by
  rw [natRepr_eq]
  intro c hc
  exact natDigitsRev_mem_digits n c (List.mem_reverse.mp hc)

theorem digitChars_good :
    ∀ c ∈ (['0', '1', '2', '3', '4', '5', '6', '7', '8', '9'] : List Char),
      badFileChar c = false ∧ jsWhitespace c = false := by decide

theorem collisionCandidate_chars (f : String) (k : Nat) :
    ∀ c ∈ (collisionCandidate f k).data,
      c ∈ f.data ∨ c = '_' ∨ c = '.' ∨
        c ∈ (['0', '1', '2', '3', '4', '5', '6', '7', '8', '9'] : List Char) := by
  unfold collisionCandidate
  by_cases hk : k = 0
  · rw [if_pos hk]; exact fun c hc => Or.inl hc
  · rw [if_neg hk]
    intro c hc
    simp only [String.data_append] at hc
    rcases List.mem_append.mp hc with hc2 | hc2
    · rcases List.mem_append.mp hc2 with hc3 | hc3
      · rcases List.mem_append.mp hc3 with hc4 | hc4
        · exact Or.inl (splitExt_base_chars f c hc4)
        · have h4 : c = '_' := by simpa using hc4
          exact Or.inr (Or.inl h4)
      · exact Or.inr (Or.inr (Or.inr (natRepr_chars k c hc3)))
    · rcases splitExt_ext_chars f c hc2 with h | h
      · exact Or.inl h
      · exact Or.inr (Or.inr (Or.inl h))

theorem resolveCollisionAux_is_candidate (taken : List String) (f : String) :
    ∀ fuel k, ∃ m, resolveCollisionAux taken f k fuel = collisionCandidate f m := by
  intro fuel
  induction fuel with
  | zero => intro k; exact ⟨k, rfl⟩
  | succ fuel ih =>
    intro k
    simp only [resolveCollisionAux]
    by_cases hk : collisionCandidate f k ∈ taken
    · rw [if_pos hk]; exact ih (k + 1)
    · rw [if_neg hk]; exact ⟨k, rfl⟩

theorem resolveCollision_chars (taken : List String) (f : String) :
    ∀ c ∈ (resolveCollision taken f).data,
      c ∈ f.data ∨ c = '_' ∨ c = '.' ∨
        c ∈ (['0', '1', '2', '3', '4', '5', '6', '7', '8', '9'] : List Char) := by
  unfold resolveCollision
  rcases resolveCollisionAux_is_candidate taken f (taken.length + 2) 0 with ⟨m, hm⟩
  rw [hm]
  exact collisionCandidate_chars f m

theorem addToZip_goodNames {st : ZipState} (folder fname : String) (bytes : List Nat)
    (hst : ∀ e ∈ st.entries, ∀ c ∈ e.2.1.data,
      badFileChar c = false ∧ jsWhitespace c = false)
    (hf : ∀ c ∈ fname.data, badFileChar c = false ∧ jsWhitespace c = false) :
    ∀ e ∈ (addToZip st folder fname bytes).1.entries, ∀ c ∈ e.2.1.data,
      badFileChar c = false ∧ jsWhitespace c = false := by
  intro e he c hc
  unfold addToZip at he
  simp only at he
  rcases List.mem_append.mp he with he2 | he2
  · exact hst e he2 c hc
  · simp only [List.mem_singleton] at he2
    subst he2
    rcases resolveCollision_chars (folderNames st folder) fname c hc with h | h | h | h
    · exact hf c h
    · subst h; exact ⟨by decide, by decide⟩
    · subst h; exact ⟨by decide, by decide⟩
    · exact digitChars_good c h

theorem processItem_goodNames (cfg : RunConfig) (u : String) (index : Nat)
    {st : ZipState}
    (hst : ∀ e ∈ st.entries, ∀ c ∈ e.2.1.data,
      badFileChar c = false ∧ jsWhitespace c = false) :
    ∀ e ∈ (processItem cfg u index st).1.entries, ∀ c ∈ e.2.1.data,
      badFileChar c = false ∧ jsWhitespace c = false := by
  unfold processItem
  by_cases hd : strStartsWith u "data:image/"
  · simp only [hd, if_true]
    cases hsplit : (strSplitOn u ',').drop 1 with
    | nil => exact hst
    | cons b rest =>
      exact addToZip_goodNames _ _ _ hst (sanitizeFilename_chars _)
  · simp only [hd]
    cases hfetch : cfg.fetchAsset u with
    | ok b ct =>
      simp only
      by_cases hmem : cfg.md5Bytes b ∈ st.hashes
      · simp only [hmem, if_true]
        exact hst
      · simp only [hmem, if_false]
        exact addToZip_goodNames _ _ _ hst (sanitizeFilename_chars _)
    | status c => exact hst
    | aborted => exact hst

theorem runDownloadsAux_goodNames (cfg : RunConfig) :
    ∀ (l : List String) (index : Nat) (st : ZipState),
      (∀ e ∈ st.entries, ∀ c ∈ e.2.1.data,
        badFileChar c = false ∧ jsWhitespace c = false) →
      ∀ e ∈ (runDownloadsAux cfg l index st).1.entries, ∀ c ∈ e.2.1.data,
        badFileChar c = false ∧ jsWhitespace c = false := by
  intro l
  induction l with
  | nil => intro index st h; exact h
  | cons a rest ih =>
    intro index st h
    exact ih (index + 1) (processItem cfg a index st).1
      (processItem_goodNames cfg a index h)

theorem runStream_eq_noBody (cfg : RunConfig) (h : cfg.bodyOk = false) :
    runStream cfg = [.errorEvt "Internal server error"] := by
  unfold runStream
  rw [h]
  rfl

theorem runStream_eq_noUrl (cfg : RunConfig) (hb : cfg.bodyOk = true)
    (h : cfg.urlProvided = false) :
    runStream cfg = [.errorEvt "URL is required"] := by
  unfold runStream
  rw [hb, h]
  rfl

theorem runStream_eq_invalid (cfg : RunConfig) (hb : cfg.bodyOk = true)
    (hp : cfg.urlProvided = true) (h : cfg.urlValid = false) :
    runStream cfg = [.progressEvt 0 "Validating URL..." 0 0 none,
      .errorEvt "Invalid URL"] := by
  unfold runStream
  rw [hb, hp, h]
  rfl

theorem runStream_eq_pageThrow (cfg : RunConfig) (hb : cfg.bodyOk = true)
    (hp : cfg.urlProvided = true) (hv : cfg.urlValid = true)
    (h : cfg.pageFetch = none) :
    runStream cfg = [.progressEvt 0 "Validating URL..." 0 0 none,
      .progressEvt 5 "Fetching webpage..." 0 0 none,
      .errorEvt "Internal server error"] := by
  unfold runStream
  rw [hb, hp, hv, h]
  rfl

theorem runStream_eq_pageBad (cfg : RunConfig) (hb : cfg.bodyOk = true)
    (hp : cfg.urlProvided = true) (hv : cfg.urlValid = true)
    (h : cfg.pageFetch = some false) :
    runStream cfg = [.progressEvt 0 "Validating URL..." 0 0 none,
      .progressEvt 5 "Fetching webpage..." 0 0 none,
      .errorEvt "Failed to fetch webpage"] := by
  unfold runStream
  rw [hb, hp, hv, h]
  rfl

theorem runStream_eq_empty (cfg : RunConfig) (hb : cfg.bodyOk = true)
    (hp : cfg.urlProvided = true) (hv : cfg.urlValid = true)
    (hpf : cfg.pageFetch = some true)
    (hur : processUrls cfg.resolver cfg.md5Str (candidateList cfg) = []) :
    runStream cfg = [.progressEvt 0 "Validating URL..." 0 0 none,
      .progressEvt 5 "Fetching webpage..." 0 0 none,
      .progressEvt 15 "Analyzing webpage for images..." 0 0 none,
      .progressEvt 25 "Processing and filtering images..." 0 0 none,
      .errorEvt "No images found on the webpage"] := by
  unfold runStream
  rw [hb, hp, hv, hpf]
  simp [hur]

theorem runStream_eq_main (cfg : RunConfig) (hb : cfg.bodyOk = true)
    (hp : cfg.urlProvided = true) (hv : cfg.urlValid = true)
    (hpf : cfg.pageFetch = some true)
    (hne : processUrls cfg.resolver cfg.md5Str (candidateList cfg) ≠ []) :
    runStream cfg =
      [SSEvent.progressEvt 0 "Validating URL..." 0 0 none,
       SSEvent.progressEvt 5 "Fetching webpage..." 0 0 none,
       SSEvent.progressEvt 15 "Analyzing webpage for images..." 0 0 none,
       SSEvent.progressEvt 25 "Processing and filtering images..." 0 0 none,
       SSEvent.progressEvt 30
         ("Found " ++
           Nat.repr (processUrls cfg.resolver cfg.md5Str (candidateList cfg)).length ++
           " images. Starting downloads...")
         (processUrls cfg.resolver cfg.md5Str (candidateList cfg)).length 0 none] ++
      (runStreamItemsAux cfg
        (processUrls cfg.resolver cfg.md5Str (candidateList cfg)).length
        (processUrls cfg.resolver cfg.md5Str (candidateList cfg)) 0
        { entries := [], hashes := [] }).2 ++
      [SSEvent.progressEvt 95 "Creating ZIP file..."
        (processUrls cfg.resolver cfg.md5Str (candidateList cfg)).length
        (processUrls cfg.resolver cfg.md5Str (candidateList cfg)).length none] ++
      (if !cfg.zipOk then [SSEvent.errorEvt "Internal server error"]
       else
         [SSEvent.archiveEvt 100 "Complete! Starting download..."
           (processUrls cfg.resolver cfg.md5Str (candidateList cfg)).length
           (processUrls cfg.resolver cfg.md5Str (candidateList cfg)).length
           (zipFilename cfg.hostname)]) := by
  unfold runStream
  rw [hb, hp, hv, hpf]
  have he : (processUrls cfg.resolver cfg.md5Str (candidateList cfg)).isEmpty = false := by
    cases hul : processUrls cfg.resolver cfg.md5Str (candidateList cfg) with
    | nil => exact absurd hul hne
    | cons x xs => rfl
  simp [he, List.append_assoc]

/-- C4: for every run configuration and resolved URL list, no two archive
entries produced by the download loop share the same (folder, filename)
pair — the collision loop inserts `_1`, `_2`, … before the extension until
the name is free — and in particular, in the concrete run in which two
distinct logo URLs both resolve to `logo.png` in folder `logos`, the
second entry is stored as `logo_1.png`. -/
theorem spec_c4_archive_unique :
    (∀ (cfg : RunConfig) (urls : List String),
      entriesOk (runDownloads cfg urls).1.entries) ∧
    (runDownloads logoCollisionConfig
      ["http://a/logo.png", "http://b/logo.png"]).1.entries =
      [("logos", "logo.png", [1]), ("logos", "logo_1.png", [2])] := by
  constructor
  · intro cfg urls
    exact runDownloadsAux_entriesOk cfg urls 0 _ List.Pairwise.nil
  · decide

/-- C5: the normalizer never keeps two URLs with the same normalized key
(URL without query or fragment, lower-cased), the kept URL for a key is
the first-encountered valid candidate carrying that key, and every valid
candidate key is represented — assuming the external MD5 digest used as
the map key is injective on the normalized keys of the run. -/
theorem spec_c5_normalizer_dedup (resolver : String → Option String)
    (md5Str : String → String) (hinj : Function.Injective md5Str)
    (cands : List String) :
    ((processUrls resolver md5Str cands).map normalizedKey).Nodup ∧
    (∀ u ∈ processUrls resolver md5Str cands,
      firstValid resolver cands (normalizedKey u) = some u) ∧
    (∀ src ∈ cands, ∀ a, resolver src = some a → mightBeImage a = true →
      normalizedKey a ∈ (processUrls resolver md5Str cands).map normalizedKey) := by
  have h := processAcc_spec resolver md5Str hinj cands
  exact ⟨h.2.1, h.2.2.1, h.2.2.2⟩

theorem spec_c5_witness :
    Function.Injective (fun s : String => s) ∧
    (((processUrls (fun s => some s) (fun s => s)
        ["http://a/img?one", "http://a/img?two"]).map normalizedKey).Nodup ∧
     (∀ u ∈ processUrls (fun s => some s) (fun s => s)
        ["http://a/img?one", "http://a/img?two"],
       firstValid (fun s => some s) ["http://a/img?one", "http://a/img?two"]
         (normalizedKey u) = some u) ∧
     (∀ src ∈ ["http://a/img?one", "http://a/img?two"], ∀ a,
       (fun s : String => some s) src = some a → mightBeImage a = true →
       normalizedKey a ∈ (processUrls (fun s => some s) (fun s => s)
         ["http://a/img?one", "http://a/img?two"]).map normalizedKey)) :=
  ⟨fun _ _ h => h,
   spec_c5_normalizer_dedup (fun s => some s) (fun s => s) (fun _ _ h => h)
     ["http://a/img?one", "http://a/img?two"]⟩

/-- C9 counterexample: an apostrophe — a quote character — survives into an
archive filename.  A URL path may contain a single quote (the URL parser
percent-encodes control characters and double quotes in paths, but not
single quotes), and the sanitization regex `[<>:"/\\|?*]` does not cover
it, so the entry for a path ending in a quoted name keeps the quote. -/
theorem spec_c9_counterexample :
    (runDownloads apostropheConfig ["http://x.test/u.png"]).1.entries =
      [("images", String.mk ['o', apostropheChar, 'b', '.', 'p', 'n', 'g'], [3])] ∧
    apostropheChar ∈ (String.mk ['o', apostropheChar, 'b', '.', 'p', 'n', 'g']).data := by
  exact ⟨by decide, by decide⟩

/-- C9 as amended: every character of every archive-entry filename avoids
the sanitized set — the nine characters `< > : " / \ | ? *` and the
JavaScript whitespace class are never present (in particular no path
separators and no double quotes); single quotes are outside the sanitized
set and may remain. -/
theorem spec_c9_amended (cfg : RunConfig) (urls : List String) :
    ∀ e ∈ (runDownloads cfg urls).1.entries, ∀ c ∈ e.2.1.data,
      badFileChar c = false ∧ jsWhitespace c = false :=
  runDownloadsAux_goodNames cfg urls 0 { entries := [], hashes := [] }
    (fun e he => absurd he (List.not_mem_nil e))

theorem spec_c9_amended_witness :
    (("images", String.mk ['o', apostropheChar, 'b', '.', 'p', 'n', 'g'],
        ([3] : List Nat)) ∈
      (runDownloads apostropheConfig ["http://x.test/u.png"]).1.entries) ∧
    ('o' ∈ (String.mk ['o', apostropheChar, 'b', '.', 'p', 'n', 'g']).data) ∧
    (badFileChar 'o' = false ∧ jsWhitespace 'o' = false) :=
  ⟨by decide, by decide,
   spec_c9_amended apostropheConfig ["http://x.test/u.png"]
     ("images", String.mk ['o', apostropheChar, 'b', '.', 'p', 'n', 'g'], [3])
     (by decide) 'o' (by decide)⟩

/-- C2: when zero candidate URLs survive normalization (the candidate set
already including the eight unconditional favicon probes), the batch
handler answers with the 404 "No images found on the webpage" error and no
archive, and the streaming handler closes with the same error record and
never emits an archive record. -/
theorem spec_c2_discovery_empty (cfg : RunConfig) (hb : cfg.bodyOk = true)
    (hp : cfg.urlProvided = true) (hv : cfg.urlValid = true)
    (hpf : cfg.pageFetch = some true)
    (hur : processUrls cfg.resolver cfg.md5Str (candidateList cfg) = []) :
    runBatch cfg = .notFound "No images found on the webpage" ∧
    (∀ entries fname, runBatch cfg ≠ .archive entries fname) ∧
    runStream cfg = [.progressEvt 0 "Validating URL..." 0 0 none,
      .progressEvt 5 "Fetching webpage..." 0 0 none,
      .progressEvt 15 "Analyzing webpage for images..." 0 0 none,
      .progressEvt 25 "Processing and filtering images..." 0 0 none,
      .errorEvt "No images found on the webpage"] := by
  have h1 : runBatch cfg = .notFound "No images found on the webpage" := by
    unfold runBatch
    rw [hb, hp, hv, hpf]
    simp [hur]
  refine ⟨h1, ?_, runStream_eq_empty cfg hb hp hv hpf hur⟩
  intro entries fname
  rw [h1]
  intro hcontra
  cases hcontra

theorem spec_c2_witness :
    defaultConfig.bodyOk = true ∧ defaultConfig.urlProvided = true ∧
    defaultConfig.urlValid = true ∧ defaultConfig.pageFetch = some true ∧
    processUrls defaultConfig.resolver defaultConfig.md5Str
      (candidateList defaultConfig) = [] ∧
    (runBatch defaultConfig = .notFound "No images found on the webpage" ∧
     (∀ entries fname, runBatch defaultConfig ≠ .archive entries fname) ∧
     runStream defaultConfig = [.progressEvt 0 "Validating URL..." 0 0 none,
       .progressEvt 5 "Fetching webpage..." 0 0 none,
       .progressEvt 15 "Analyzing webpage for images..." 0 0 none,
       .progressEvt 25 "Processing and filtering images..." 0 0 none,
       .errorEvt "No images found on the webpage"]) :=
  ⟨rfl, rfl, rfl, rfl, by decide,
   spec_c2_discovery_empty defaultConfig rfl rfl rfl rfl (by decide)⟩

/-- C3 counterexample: a run in which discovery finds eight candidates and
every single acquisition fails does not surface any distinct
all-assets-failed outcome — the batch handler returns the normal success
response carrying an archive with zero asset entries. -/
theorem spec_c3_counterexample :
    runBatch allFailConfig = .archive [] "x.test_images.zip" ∧
    processUrls allFailConfig.resolver allFailConfig.md5Str
      (candidateList allFailConfig) ≠ [] ∧
    (∀ u ∈ processUrls allFailConfig.resolver allFailConfig.md5Str
        (candidateList allFailConfig),
      fetchFails (allFailConfig.fetchAsset u) = true) := by
  exact ⟨by decide, by decide, by decide⟩

/-- C3 as amended: when every resolved candidate is a network URL whose
acquisition fails, the run completes normally — the batch handler returns
the success archive response with an empty entry list, and the streaming
handler still terminates with the archive record; no distinct
all-assets-failed outcome exists. -/
theorem spec_c3_amended (cfg : RunConfig) (hb : cfg.bodyOk = true)
    (hp : cfg.urlProvided = true) (hv : cfg.urlValid = true)
    (hpf : cfg.pageFetch = some true) (hz : cfg.zipOk = true)
    (hne : processUrls cfg.resolver cfg.md5Str (candidateList cfg) ≠ [])
    (hfail : ∀ u ∈ processUrls cfg.resolver cfg.md5Str (candidateList cfg),
      strStartsWith u "data:image/" = false ∧
        fetchFails (cfg.fetchAsset u) = true) :
    runBatch cfg = .archive [] (zipFilename cfg.hostname) ∧
    ∃ evs, runStream cfg = evs ++
      [SSEvent.archiveEvt 100 "Complete! Starting download..."
        (processUrls cfg.resolver cfg.md5Str (candidateList cfg)).length
        (processUrls cfg.resolver cfg.md5Str (candidateList cfg)).length
        (zipFilename cfg.hostname)] := by
  have hstate := runDownloadsAux_state_const cfg
    (processUrls cfg.resolver cfg.md5Str (candidateList cfg)) 0
    { entries := [], hashes := [] } hfail
  have he : (processUrls cfg.resolver cfg.md5Str (candidateList cfg)).isEmpty = false := by
    cases hul : processUrls cfg.resolver cfg.md5Str (candidateList cfg) with
    | nil => exact absurd hul hne
    | cons x xs => rfl
  constructor
  · unfold runBatch
    rw [hb, hp, hv, hpf]
    simp only [he, Bool.false_eq_true, if_false, hz, Bool.not_true]
    unfold runDownloads
    rw [hstate]
  · rw [runStream_eq_main cfg hb hp hv hpf hne, hz]
    simp only [Bool.not_true, Bool.false_eq_true, if_false]
    exact ⟨_, rfl⟩

theorem spec_c3_amended_witness :
    allFailConfig.bodyOk = true ∧ allFailConfig.urlProvided = true ∧
    allFailConfig.urlValid = true ∧ allFailConfig.pageFetch = some true ∧
    allFailConfig.zipOk = true ∧
    processUrls allFailConfig.resolver allFailConfig.md5Str
      (candidateList allFailConfig) ≠ [] ∧
    (∀ u ∈ processUrls allFailConfig.resolver allFailConfig.md5Str
        (candidateList allFailConfig),
      strStartsWith u "data:image/" = false ∧
        fetchFails (allFailConfig.fetchAsset u) = true) ∧
    (runBatch allFailConfig = .archive [] (zipFilename allFailConfig.hostname) ∧
     ∃ evs, runStream allFailConfig = evs ++
       [SSEvent.archiveEvt 100 "Complete! Starting download..."
         (processUrls allFailConfig.resolver allFailConfig.md5Str
           (candidateList allFailConfig)).length
         (processUrls allFailConfig.resolver allFailConfig.md5Str
           (candidateList allFailConfig)).length
         (zipFilename allFailConfig.hostname)]) :=
  ⟨rfl, rfl, rfl, rfl, rfl, by decide, by decide,
   spec_c3_amended allFailConfig rfl rfl rfl rfl rfl (by decide) (by decide)⟩

/-- C1 counterexample: a network response of a single byte — shorter than
1 KB and matching no image magic-number signature — is stored in the
archive unchanged.  The handlers contain no size or signature validation
at all. -/
theorem spec_c1_counterexample :
    (runDownloads tinyBodyConfig ["http://x.test/a.bin"]).1.entries =
      [("images", "a.bin", [0])] ∧
    ([0] : List Nat).length < 1024 ∧ specImageSignature [0] = false := by
  exact ⟨by decide, by decide, by decide⟩

/-- C1 as amended: no size or magic-number validation exists; any network
response with a 2xx status whose content hash is new to the run is stored
in the archive with exactly its body bytes, even when the body is under
1 KB and its leading bytes match no known image signature. -/
theorem spec_c1_amended (cfg : RunConfig) (u : String) (index : Nat)
    (st : ZipState) (b : List Nat) (ct : Option String)
    (hu : strStartsWith u "data:image/" = false)
    (hfetch : cfg.fetchAsset u = .ok b ct)
    (hfresh : cfg.md5Bytes b ∉ st.hashes)
    (_hsmall : b.length < 1024)
    (_hsig : specImageSignature b = false) :
    (processItem cfg u index st).1.entries.map (fun e => e.2.2) =
      st.entries.map (fun e => e.2.2) ++ [b] ∧
    ((processItem cfg u index st).2).isSome = true :=
  processItem_ok_adds cfg index st hu hfetch hfresh

theorem spec_c1_amended_witness :
    strStartsWith "http://x.test/a.bin" "data:image/" = false ∧
    tinyBodyConfig.fetchAsset "http://x.test/a.bin" = .ok [0] none ∧
    tinyBodyConfig.md5Bytes [0] ∉ (ZipState.mk [] []).hashes ∧
    ([0] : List Nat).length < 1024 ∧
    specImageSignature [0] = false ∧
    ((processItem tinyBodyConfig "http://x.test/a.bin" 0
        (ZipState.mk [] [])).1.entries.map (fun e => e.2.2) =
      (ZipState.mk [] []).entries.map (fun e => e.2.2) ++ [[0]] ∧
     ((processItem tinyBodyConfig "http://x.test/a.bin" 0
        (ZipState.mk [] [])).2).isSome = true) :=
  ⟨by decide, by decide, by decide, by decide, by decide,
   spec_c1_amended tinyBodyConfig "http://x.test/a.bin" 0 (ZipState.mk [] [])
     [0] none (by decide) (by decide) (by decide) (by decide) (by decide)⟩

/-- C7: when two network items of a run answer with byte-identical bodies,
the later item is discarded by the content-hash comparison and produces no
archive entry; only the earlier occurrence can have stored one. -/
theorem spec_c7_content_dedup (cfg : RunConfig) (A B C : List String)
    (u v : String) (b : List Nat) (ct1 ct2 : Option String)
    (hu : strStartsWith u "data:image/" = false)
    (hv : strStartsWith v "data:image/" = false)
    (hfu : cfg.fetchAsset u = .ok b ct1)
    (hfv : cfg.fetchAsset v = .ok b ct2) :
    ∃ T1 T2, (runDownloads cfg (A ++ u :: B ++ v :: C)).2 =
      T1 ++ ({ url := v, fetched := true, added := none } : ItemTrace) :: T2 ∧
      T1.length = A.length + 1 + B.length :=
  runDownloadsAux_two_same cfg hu hv hfu hfv A B C 0 { entries := [], hashes := [] }

theorem spec_c7_witness :
    strStartsWith "http://a/x.png" "data:image/" = false ∧
    strStartsWith "http://b/y.png" "data:image/" = false ∧
    sameBodyConfig.fetchAsset "http://a/x.png" = .ok [7] none ∧
    sameBodyConfig.fetchAsset "http://b/y.png" = .ok [7] none ∧
    (∃ T1 T2, (runDownloads sameBodyConfig
        ([] ++ "http://a/x.png" :: [] ++ "http://b/y.png" :: [])).2 =
      T1 ++ ({ url := "http://b/y.png", fetched := true, added := none } :
        ItemTrace) :: T2 ∧
      T1.length = ([] : List String).length + 1 + ([] : List String).length) :=
  ⟨by decide, by decide, by decide, by decide,
   spec_c7_content_dedup sameBodyConfig [] [] [] "http://a/x.png"
     "http://b/y.png" [7] none none (by decide) (by decide) (by decide) (by decide)⟩

/-- C8: the run visits every resolved item exactly once in order — the
trace of a run lists exactly the input URLs, a network fetch is attempted
exactly for the non-data items (once each, never retried) — and an item
whose fetch fails (timeout abort, transport error, or non-2xx status)
leaves the archive state completely unchanged, so only that item is
skipped and the remaining items still run to normal completion. -/
theorem spec_c8_per_item_isolation (cfg : RunConfig) (urls : List String)
    (u : String) (index : Nat) (st : ZipState)
    (hu : strStartsWith u "data:image/" = false)
    (hf : fetchFails (cfg.fetchAsset u) = true) :
    ((runDownloads cfg urls).2.map ItemTrace.url = urls) ∧
    (∀ t ∈ (runDownloads cfg urls).2,
      t.fetched = !(strStartsWith t.url "data:image/")) ∧
    processItem cfg u index st = (st, none) := by
  have h := runDownloadsAux_trace cfg urls 0 { entries := [], hashes := [] }
  exact ⟨h.1, h.2, processItem_fail cfg index st hu hf⟩

theorem spec_c8_witness :
    strStartsWith "http://a/x.png" "data:image/" = false ∧
    fetchFails (defaultConfig.fetchAsset "http://a/x.png") = true ∧
    (((runDownloads defaultConfig ["http://a/x.png"]).2.map ItemTrace.url =
        ["http://a/x.png"]) ∧
     (∀ t ∈ (runDownloads defaultConfig ["http://a/x.png"]).2,
       t.fetched = !(strStartsWith t.url "data:image/")) ∧
     processItem defaultConfig "http://a/x.png" 0 (ZipState.mk [] []) =
       (ZipState.mk [] [], none)) :=
  ⟨by decide, by decide,
   spec_c8_per_item_isolation defaultConfig ["http://a/x.png"]
     "http://a/x.png" 0 (ZipState.mk [] []) (by decide) (by decide)⟩

/-- C10 counterexample: a `data:` asset is not always added to the
archive — a `data:image/...` URI with no comma makes
`Buffer.from(undefined, "base64")` throw, so the item is skipped and the
run produces no entry for it. -/
theorem spec_c10_counterexample :
    (runDownloads defaultConfig ["data:image/png"]).2 =
      [{ url := "data:image/png", fetched := false, added := none }] ∧
    (runDownloads defaultConfig ["data:image/png"]).1.entries = [] := by
  exact ⟨by decide, by decide⟩

/-- C10 as amended: content-hash deduplication applies only to
network-fetched assets.  A `data:` asset whose URI contains a comma is
always added: its processing never reads the seen-hash set (the outcome is
identical under any two hash-set contents) and never writes to it; but a
`data:` URI without a comma fails base64 decoding and is skipped. -/
theorem spec_c10_amended (cfg : RunConfig) (u : String) (index : Nat)
    (ents : List (String × String × List Nat)) (hs hs2 : List String)
    (hd : strStartsWith u "data:image/" = true)
    (hc : (strSplitOn u ',').drop 1 ≠ []) :
    (processItem cfg u index ⟨ents, hs⟩).1.hashes = hs ∧
    ((processItem cfg u index ⟨ents, hs⟩).2).isSome = true ∧
    (processItem cfg u index ⟨ents, hs⟩).1.entries =
      (processItem cfg u index ⟨ents, hs2⟩).1.entries ∧
    (processItem cfg u index ⟨ents, hs⟩).2 =
      (processItem cfg u index ⟨ents, hs2⟩).2 := by
  have h3 := processItem_data_hash_blind cfg index ents hs hs2 hd
  exact ⟨processItem_data_hashes cfg index ⟨ents, hs⟩ hd,
    processItem_data_adds cfg index ⟨ents, hs⟩ hd hc, h3.1, h3.2⟩

theorem spec_c10_amended_witness :
    strStartsWith "data:image/png;base64,QQ==" "data:image/" = true ∧
    (strSplitOn "data:image/png;base64,QQ==" ',').drop 1 ≠ [] ∧
    ((processItem defaultConfig "data:image/png;base64,QQ==" 0
        ⟨[], []⟩).1.hashes = [] ∧
     ((processItem defaultConfig "data:image/png;base64,QQ==" 0
        ⟨[], []⟩).2).isSome = true ∧
     (processItem defaultConfig "data:image/png;base64,QQ==" 0
        ⟨[], []⟩).1.entries =
       (processItem defaultConfig "data:image/png;base64,QQ==" 0
        ⟨[], ["h"]⟩).1.entries ∧
     (processItem defaultConfig "data:image/png;base64,QQ==" 0
        ⟨[], []⟩).2 =
       (processItem defaultConfig "data:image/png;base64,QQ==" 0
        ⟨[], ["h"]⟩).2) :=
  ⟨by decide, by decide,
   spec_c10_amended defaultConfig "data:image/png;base64,QQ==" 0 [] [] ["h"]
     (by decide) (by decide)⟩

theorem mem_of_getLast? {l : List Nat} {a : Nat} (h : a ∈ l.getLast?) : a ∈ l := by
  rcases List.mem_getLast?_eq_getLast h with ⟨hne, rfl⟩
  exact List.getLast_mem hne

theorem chainPercs (P T : List Nat)
    (hP : List.Chain' (fun a b => a ≤ b) P)
    (hlo : ∀ p ∈ P, 30 ≤ p) (hhi : ∀ p ∈ P, p ≤ 90)
    (hT : T = [100] ∨ T = []) :
    List.Chain' (fun a b => a ≤ b)
      (0 :: 5 :: 15 :: 25 :: 30 :: (P ++ 95 :: T)) := by
  have hchainT : List.Chain' (fun a b : Nat => a ≤ b) (95 :: T) := by
    rcases hT with rfl | rfl
    · simp [List.chain'_cons]
    · exact List.chain'_singleton 95
  have h2 : List.Chain' (fun a b : Nat => a ≤ b) (P ++ 95 :: T) := by
    rw [List.chain'_append]
    refine ⟨hP, hchainT, ?_⟩
    intro x hx y hy
    have hx2 : x ∈ P := mem_of_getLast? hx
    have hy2 : 95 = y := by simpa using hy
    subst hy2
    exact le_trans (hhi x hx2) (by omega)
  have hhead : ∀ y ∈ (P ++ 95 :: T).head?, 30 ≤ y := by
    intro y hy
    cases P with
    | nil =>
      simp only [List.nil_append, List.head?_cons, Option.mem_def,
        Option.some.injEq] at hy
      omega
    | cons p P2 =>
      simp only [List.cons_append, List.head?_cons, Option.mem_def,
        Option.some.injEq] at hy
      subst hy
      exact hlo p (List.mem_cons_self p P2)
  rw [List.chain'_cons']
  refine ⟨by simp, ?_⟩
  rw [List.chain'_cons']
  refine ⟨by simp, ?_⟩
  rw [List.chain'_cons']
  refine ⟨by simp, ?_⟩
  rw [List.chain'_cons']
  refine ⟨by simp, ?_⟩
  rw [List.chain'_cons']
  exact ⟨hhead, h2⟩

set_option linter.constructorNameAsVariable false in
/-- C6: in streaming mode, for every run configuration, the percentage
values carried by the emitted event sequence are non-decreasing, and the
sequence ends with exactly one terminal event — either an error record or
the archive record — which is its last element; no terminal event occurs
earlier. -/
theorem spec_c6_stream_protocol (cfg : RunConfig) :
    List.Chain' (fun a b => a ≤ b) ((runStream cfg).filterMap eventPercentage) ∧
    ∃ init last, runStream cfg = init ++ [last] ∧ isTerminal last = true ∧
      ∀ e ∈ init, isTerminal e = false := by
  cases hb : cfg.bodyOk with
  | false =>
    rw [runStream_eq_noBody cfg hb]
    refine ⟨by simp [eventPercentage], [], _, rfl, rfl, by simp⟩
  | true =>
  cases hp : cfg.urlProvided with
  | false =>
    rw [runStream_eq_noUrl cfg hb hp]
    refine ⟨by simp [eventPercentage], [], _, rfl, rfl, by simp⟩
  | true =>
  cases hv : cfg.urlValid with
  | false =>
    rw [runStream_eq_invalid cfg hb hp hv]
    refine ⟨by simp [eventPercentage], [.progressEvt 0 "Validating URL..." 0 0 none],
      _, rfl, rfl, ?_⟩
    intro e he
    rcases List.mem_singleton.mp he with rfl
    rfl
  | true =>
  cases hpf : cfg.pageFetch with
  | none =>
    rw [runStream_eq_pageThrow cfg hb hp hv hpf]
    refine ⟨by simp [eventPercentage, List.chain'_cons],
      [.progressEvt 0 "Validating URL..." 0 0 none,
       .progressEvt 5 "Fetching webpage..." 0 0 none], _, rfl, rfl, ?_⟩
    intro e he
    rcases List.mem_cons.mp he with rfl | he2
    · rfl
    · rcases List.mem_singleton.mp he2 with rfl
      rfl
  | some pageOk =>
  cases pageOk with
  | false =>
    rw [runStream_eq_pageBad cfg hb hp hv hpf]
    refine ⟨by simp [eventPercentage, List.chain'_cons],
      [.progressEvt 0 "Validating URL..." 0 0 none,
       .progressEvt 5 "Fetching webpage..." 0 0 none], _, rfl, rfl, ?_⟩
    intro e he
    rcases List.mem_cons.mp he with rfl | he2
    · rfl
    · rcases List.mem_singleton.mp he2 with rfl
      rfl
  | true =>
  by_cases hur : processUrls cfg.resolver cfg.md5Str (candidateList cfg) = []
  · rw [runStream_eq_empty cfg hb hp hv hpf hur]
    refine ⟨by simp [eventPercentage, List.chain'_cons],
      [.progressEvt 0 "Validating URL..." 0 0 none,
       .progressEvt 5 "Fetching webpage..." 0 0 none,
       .progressEvt 15 "Analyzing webpage for images..." 0 0 none,
       .progressEvt 25 "Processing and filtering images..." 0 0 none], _, rfl, rfl, ?_⟩
    intro e he
    simp only [List.mem_cons, List.mem_singleton] at he
    rcases he with rfl | rfl | rfl | rfl | h
    · rfl
    · rfl
    · rfl
    · rfl
    · simp at h
  · have hlen0 : 0 + (processUrls cfg.resolver cfg.md5Str (candidateList cfg)).length ≤
        (processUrls cfg.resolver cfg.md5Str (candidateList cfg)).length := by omega
    obtain ⟨ht, hc, hbnd⟩ := runStreamItemsAux_spec cfg
      (processUrls cfg.resolver cfg.md5Str (candidateList cfg)).length
      (processUrls cfg.resolver cfg.md5Str (candidateList cfg)) 0
      { entries := [], hashes := [] } hlen0
    have hlo : ∀ p ∈ ((runStreamItemsAux cfg
        (processUrls cfg.resolver cfg.md5Str (candidateList cfg)).length
        (processUrls cfg.resolver cfg.md5Str (candidateList cfg)) 0
        { entries := [], hashes := [] }).2).filterMap eventPercentage, 30 ≤ p :=
      fun p hp2 => le_trans (itemProgress_ge_30 _ _) (hbnd p hp2).1
    have hhi : ∀ p ∈ ((runStreamItemsAux cfg
        (processUrls cfg.resolver cfg.md5Str (candidateList cfg)).length
        (processUrls cfg.resolver cfg.md5Str (candidateList cfg)) 0
        { entries := [], hashes := [] }).2).filterMap eventPercentage, p ≤ 90 :=
      fun p hp2 => (hbnd p hp2).2
    clear hbnd hlen0
    rw [runStream_eq_main cfg hb hp hv hpf hur]
    revert ht hc hlo hhi
    generalize (runStreamItemsAux cfg
        (processUrls cfg.resolver cfg.md5Str (candidateList cfg)).length
        (processUrls cfg.resolver cfg.md5Str (candidateList cfg)) 0
        { entries := [], hashes := [] }).2 = evs
    generalize (processUrls cfg.resolver cfg.md5Str (candidateList cfg)).length = n
    intro ht hc hlo hhi
    cases hz : cfg.zipOk with
    | true =>
      simp only [hz, Bool.not_true, Bool.false_eq_true, if_false]
      constructor
      · simp only [List.filterMap_append, List.filterMap_cons, List.filterMap_nil,
          eventPercentage, List.cons_append, List.nil_append, List.append_assoc]
        exact chainPercs _ _ hc hlo hhi (Or.inl rfl)
      · refine ⟨_, _, rfl, rfl, ?_⟩
        intro e he
        rcases List.mem_append.mp he with he2 | he2
        · rcases List.mem_append.mp he2 with he3 | he3
          · simp only [List.mem_cons, List.mem_singleton] at he3
            rcases he3 with rfl | rfl | rfl | rfl | rfl | h
            · rfl
            · rfl
            · rfl
            · rfl
            · rfl
            · simp at h
          · exact ht e he3
        · rcases List.mem_singleton.mp he2 with rfl
          rfl
    | false =>
      simp only [hz, Bool.not_false, if_true]
      constructor
      · simp only [List.filterMap_append, List.filterMap_cons, List.filterMap_nil,
          eventPercentage, List.cons_append, List.nil_append, List.append_assoc]
        exact chainPercs _ _ hc hlo hhi (Or.inr rfl)
      · refine ⟨_, _, rfl, rfl, ?_⟩
        intro e he
        rcases List.mem_append.mp he with he2 | he2
        · rcases List.mem_append.mp he2 with he3 | he3
          · simp only [List.mem_cons, List.mem_singleton] at he3
            rcases he3 with rfl | rfl | rfl | rfl | rfl | h
            · rfl
            · rfl
            · rfl
            · rfl
            · rfl
            · simp at h
          · exact ht e he3
        · rcases List.mem_singleton.mp he2 with rfl
          rfl
